import Mathlib

/-!
Verification development for the `gnn-jamming-source-localization` data pipeline.

The Python sources are shallowly embedded here:

* `src/data/generator.py` — scenario generation: node placement, jammer placement,
  free-space path loss, worst-case path sampling, per-node noise floor / jammed flags,
  and the scenario acceptance filter.
* `src/data_processing.py` — `Instance` cropping, min-max normalization and its
  inverse, and k-NN edge construction for the graph datasets.

Pure functions become Lean functions; numpy float arithmetic on coordinates is
embedded over `ℚ` where the code only adds, multiplies, compares and divides, and
over `ℝ` where it takes logarithms, square roots or trigonometric functions.
The `while True` rejection-sampling loop is embedded as structural recursion over
the prefix of the random candidate stream it consumes.
-/

/- ## Rejection sampling of the jammer position (`random_position_outside_sample`) -/

/-- An axis-aligned rectangle `(x1, y1, x2, y2)` as used for `region` and
`sampled_region` in `generator.py` lines 190–201. -/
structure Rect where
  x1 : ℚ
  y1 : ℚ
  x2 : ℚ
  y2 : ℚ

/-- The membership test of the loop body: `sx1 <= rand_x <= sx2 and sy1 <= rand_y <= sy2`. -/
def Rect.contains (r : Rect) (p : ℚ × ℚ) : Bool :=
  decide (r.x1 ≤ p.1) && decide (p.1 ≤ r.x2) && decide (r.y1 ≤ p.2) && decide (p.2 ≤ r.y2)

/-- `random_position_outside_sample` (`generator.py` lines 190–201).  The Python
function draws `(rand_x, rand_y)` uniformly from `region` inside a `while True`
loop and returns the first draw that is not inside `sampled_region`.  The loop is
embedded by recursion over the list of candidate draws; `none` means the loop is
still running after consuming every listed draw (the Python code has no retry cap,
so there is no other way for it to stop). -/
def random_position_outside_sample (sampled : Rect) : List (ℚ × ℚ) → Option (ℚ × ℚ)
  | [] => none
  | c :: cs =>
      if sampled.contains c then random_position_outside_sample sampled cs else some c

/- ## Min-max normalization (`apply_min_max_normalization_instance`) and its
inverse (`convert_output_eval`, minmax branch) -/

/-- `range_coords = np.where(max_coords - min_coords == 0, 1, max_coords - min_coords)`
(`data_processing.py` line 282), one coordinate at a time. -/
def range_coords (mn mx : ℚ) : ℚ := if mx - mn = 0 then 1 else mx - mn

/-- One coordinate of `normalized_positions = 2 * ((positions - min_coords) / range_coords) - 1`
(`data_processing.py` lines 283 and 289, applied to node and jammer coordinates alike). -/
def normalize_coord (mn mx x : ℚ) : ℚ := 2 * ((x - mn) / range_coords mn mx) - 1

/-- One coordinate of the inverse transform in `convert_output_eval`
(`data_processing.py` lines 590–591):
`converted_output = (output + 1) / 2 * (max_coords - min_coords) + min_coords`.
Note that this uses the raw `max_coords - min_coords`, without the zero-range
replacement performed during normalization. -/
def convert_output_eval_coord (mn mx y : ℚ) : ℚ := (y + 1) / 2 * (mx - mn) + mn

/-- `np.min` of a coordinate list (`np.min(node_positions, axis=0)`, one axis). -/
def np_min : List ℚ → ℚ
  | [] => 0
  | x :: xs => xs.foldl min x

/-- `np.max` of a coordinate list (`np.max(node_positions, axis=0)`, one axis). -/
def np_max : List ℚ → ℚ
  | [] => 0
  | x :: xs => xs.foldl max x

/- ## `Instance` and `Instance.get_crop` (`data_processing.py` lines 24–65) -/

/-- The `Instance` class of `data_processing.py` (lines 24–43).  Sequence fields are
lists, scalar fields are copied verbatim by `get_crop`; `jammed_at` may be NaN in
the source and is embedded as an `Option`. -/
structure Instance where
  num_samples : ℕ
  timestamps : List ℚ
  node_positions : List (ℚ × ℚ)
  node_noise : List ℚ
  angle_of_arrival : List ℚ
  speed : ℚ
  pl_exp : ℚ
  sigma : ℚ
  alignment_coefficient : ℚ
  sampling_frequency : ℚ
  jammer_power : ℚ
  jammer_position : List ℚ
  jammer_gain : ℚ
  id : ℕ
  dataset : String
  perc_completion_full : List ℚ
  jammed_at : Option ℚ
  deriving DecidableEq

/-- Python list slicing `xs[start:end]` for `start ≤ end ≤ xs.length`. -/
def pySlice (xs : List α) (start stop : ℕ) : List α := (xs.take stop).drop start

/-- `Instance.get_crop` (`data_processing.py` lines 45–65): sequence fields are
sliced with `[start:end]`, `num_samples` becomes `end - start`, and every scalar
field is copied unchanged into a brand-new `Instance`. -/
def Instance.get_crop (inst : Instance) (start stop : ℕ) : Instance :=
  { num_samples := stop - start
    timestamps := pySlice inst.timestamps start stop
    node_positions := pySlice inst.node_positions start stop
    node_noise := pySlice inst.node_noise start stop
    angle_of_arrival := pySlice inst.angle_of_arrival start stop
    speed := inst.speed
    pl_exp := inst.pl_exp
    sigma := inst.sigma
    alignment_coefficient := inst.alignment_coefficient
    sampling_frequency := inst.sampling_frequency
    jammer_power := inst.jammer_power
    jammer_position := inst.jammer_position
    jammer_gain := inst.jammer_gain
    id := inst.id
    dataset := inst.dataset
    perc_completion_full := pySlice inst.perc_completion_full start stop
    jammed_at := inst.jammed_at }

/- ### Helper lemmas about slices and folded minima/maxima -/

lemma pySlice_length {α : Type} (xs : List α) (start stop : ℕ) (hstop : stop ≤ xs.length) :
    (pySlice xs start stop).length = stop - start := by
  simp [pySlice, List.length_drop, List.length_take, Nat.min_eq_left hstop]

lemma pySlice_get? {α : Type} (xs : List α) (start stop i : ℕ) (hi : start + i < stop) :
    (pySlice xs start stop).get? i = xs.get? (start + i) := by
  unfold pySlice
  rw [List.get?_drop, List.get?_take hi]

lemma foldl_min_le_init {α : Type} [LinearOrder α] (l : List α) :
    ∀ a : α, l.foldl min a ≤ a := by
  induction l with
  | nil => intro a; exact le_rfl
  | cons b bs ih => intro a; exact (ih (min a b)).trans (min_le_left a b)

lemma foldl_min_le_mem {α : Type} [LinearOrder α] (l : List α) :
    ∀ a x, x ∈ l → l.foldl min a ≤ x := by
  induction l with
  | nil => intro a x hx; cases hx
  | cons b bs ih =>
      intro a x hx
      rcases List.mem_cons.1 hx with h | h
      · subst h; exact (foldl_min_le_init bs (min a x)).trans (min_le_right a x)
      · exact ih (min a b) x h

lemma le_foldl_max_init {α : Type} [LinearOrder α] (l : List α) :
    ∀ a : α, a ≤ l.foldl max a := by
  induction l with
  | nil => intro a; exact le_rfl
  | cons b bs ih => intro a; exact (le_max_left a b).trans (ih (max a b))

lemma mem_le_foldl_max {α : Type} [LinearOrder α] (l : List α) :
    ∀ a x, x ∈ l → x ≤ l.foldl max a := by
  induction l with
  | nil => intro a x hx; cases hx
  | cons b bs ih =>
      intro a x hx
      rcases List.mem_cons.1 hx with h | h
      · subst h; exact (le_max_right a x).trans (le_foldl_max_init bs (max a x))
      · exact ih (max a b) x h

lemma foldl_max_eq_init_or_mem {α : Type} [LinearOrder α] (l : List α) :
    ∀ a : α, l.foldl max a = a ∨ l.foldl max a ∈ l := by
  induction l with
  | nil => intro a; exact Or.inl rfl
  | cons b bs ih =>
      intro a
      rcases ih (max a b) with h | h
      · rcases max_choice a b with hm | hm
        · exact Or.inl (by rw [List.foldl_cons, h, hm])
        · exact Or.inr (by rw [List.foldl_cons, h, hm]; exact List.mem_cons_self _ _)
      · exact Or.inr (List.mem_cons_of_mem _ h)

lemma np_min_le {l : List ℚ} {x : ℚ} (hx : x ∈ l) : np_min l ≤ x := by
  cases l with
  | nil => cases hx
  | cons a as =>
      unfold np_min
      rcases List.mem_cons.1 hx with h | h
      · subst h; exact foldl_min_le_init as x
      · exact foldl_min_le_mem as a x h

lemma le_np_max {l : List ℚ} {x : ℚ} (hx : x ∈ l) : x ≤ np_max l := by
  cases l with
  | nil => cases hx
  | cons a as =>
      unfold np_max
      rcases List.mem_cons.1 hx with h | h
      · subst h; exact le_foldl_max_init as x
      · exact mem_le_foldl_max as a x h

/-- Round trip of one min-max-normalized coordinate: exact whenever the value lies
between the stored bounds (always true for node coordinates) or the range is
nonzero.  In the degenerate zero-range case the inverse returns the shared bound. -/
lemma roundtrip_coord (mn mx x : ℚ) (h : (mn ≤ x ∧ x ≤ mx) ∨ mn ≠ mx) :
    convert_output_eval_coord mn mx (normalize_coord mn mx x) = x := by
  by_cases hr : mx - mn = 0
  · have hmx : mx = mn := by linarith
    rcases h with ⟨h1, h2⟩ | hne
    · have hx : x = mn := le_antisymm (hmx ▸ h2) h1
      simp [convert_output_eval_coord, hmx, hx]
    · exact absurd hmx.symm hne
  · unfold convert_output_eval_coord normalize_coord range_coords
    rw [if_neg hr]
    field_simp
    ring

/-- C6: In outside-sample mode, every jammer position committed by the generator is
the value returned by `random_position_outside_sample`: a candidate drawn inside the
global bounding region that the loop accepted, hence inside the region and outside
the closed node-position bounding box (boundary points are rejected too, so
"outside" is strict). -/
theorem jammer_position_in_region_outside_box (region sampled : Rect)
    (cands : List (ℚ × ℚ)) (p : ℚ × ℚ)
    (hin : ∀ c ∈ cands, region.contains c = true)
    (hret : random_position_outside_sample sampled cands = some p) :
    region.contains p = true ∧ sampled.contains p = false := by
  induction cands with
  | nil => simp [random_position_outside_sample] at hret
  | cons c cs ih =>
      by_cases h : sampled.contains c = true
      · rw [random_position_outside_sample, if_pos h] at hret
        exact ih (fun d hd => hin d (List.mem_cons_of_mem _ hd)) hret
      · rw [random_position_outside_sample, if_neg h] at hret
        have hcp : c = p := by injection hret
        subst hcp
        exact ⟨hin c (List.mem_cons_self _ _), by simpa using h⟩

/-- Witness for the previous theorem at a concrete region, box and draw stream. -/
theorem jammer_position_in_region_outside_box_witness :
    Rect.contains ⟨0, 0, 1500, 1500⟩ (7, 1) = true ∧
      Rect.contains ⟨2, 2, 5, 5⟩ (7, 1) = false :=
  jammer_position_in_region_outside_box ⟨0, 0, 1500, 1500⟩ ⟨2, 2, 5, 5⟩
    [(3, 3), (7, 1)] (7, 1) (by decide) (by decide)

/-- C7: the `while True` loop of `random_position_outside_sample` has no retry cap
and raises no error: whenever the sampled bounding box covers the whole sampling
region, the loop rejects every draw it will ever make, i.e. it never returns no
matter how many candidates it consumes.  (The claim asserts a bounded retry cap
with a fatal configuration error; no such cap exists in the code.) -/
theorem rejection_loop_never_returns_when_box_covers_region (region sampled : Rect)
    (cands : List (ℚ × ℚ))
    (hcov : ∀ p : ℚ × ℚ, region.contains p = true → sampled.contains p = true)
    (hin : ∀ c ∈ cands, region.contains c = true) :
    random_position_outside_sample sampled cands = none := by
  induction cands with
  | nil => rfl
  | cons c cs ih =>
      rw [random_position_outside_sample, if_pos (hcov c (hin c (List.mem_cons_self _ _)))]
      exact ih (fun d hd => hin d (List.mem_cons_of_mem _ hd))

/-- Witness: with the node bounding box equal to the whole `(0, 0, 1500, 1500)`
region, a concrete draw stream is entirely rejected. -/
theorem rejection_loop_never_returns_witness :
    random_position_outside_sample ⟨0, 0, 1500, 1500⟩ [(1, 1), (700, 900)] = none :=
  rejection_loop_never_returns_when_box_covers_region ⟨0, 0, 1500, 1500⟩
    ⟨0, 0, 1500, 1500⟩ [(1, 1), (700, 900)] (fun _ h => h) (by decide)

/-- C8 (counterexample): for the node positions `[(0,0), (0,1)]` the x-bounds are
degenerate (`min_x = max_x = 0`); normalizing the jammer x-coordinate `5` with the
zero-range-replaced divisor and inverting with the raw `max - min` range of
`convert_output_eval` yields `0`, not `5` — the round trip fails for jammer
coordinates in the degenerate case. -/
theorem minmax_roundtrip_fails_degenerate_jammer :
    convert_output_eval_coord (np_min ([((0:ℚ), (0:ℚ)), (0, 1)].map Prod.fst))
        (np_max ([((0:ℚ), (0:ℚ)), (0, 1)].map Prod.fst))
        (normalize_coord (np_min ([((0:ℚ), (0:ℚ)), (0, 1)].map Prod.fst))
          (np_max ([((0:ℚ), (0:ℚ)), (0, 1)].map Prod.fst)) 5) ≠ 5 := by
  norm_num [convert_output_eval_coord, normalize_coord, range_coords, np_min, np_max]

/-- C8 (amended): with bounds taken per axis over the node positions, min-max
normalization followed by the `convert_output_eval` inverse reproduces every node
coordinate exactly (including the degenerate case, where node coordinates equal the
shared bound), and reproduces the jammer coordinates whenever the corresponding
axis range is nonzero. -/
theorem minmax_roundtrip (ps : List (ℚ × ℚ)) (jam : ℚ × ℚ) (hne : ps ≠ []) :
    (∀ p ∈ ps,
      convert_output_eval_coord (np_min (ps.map Prod.fst)) (np_max (ps.map Prod.fst))
          (normalize_coord (np_min (ps.map Prod.fst)) (np_max (ps.map Prod.fst)) p.1) = p.1 ∧
      convert_output_eval_coord (np_min (ps.map Prod.snd)) (np_max (ps.map Prod.snd))
          (normalize_coord (np_min (ps.map Prod.snd)) (np_max (ps.map Prod.snd)) p.2) = p.2) ∧
    (np_min (ps.map Prod.fst) ≠ np_max (ps.map Prod.fst) →
      convert_output_eval_coord (np_min (ps.map Prod.fst)) (np_max (ps.map Prod.fst))
          (normalize_coord (np_min (ps.map Prod.fst)) (np_max (ps.map Prod.fst)) jam.1) = jam.1) ∧
    (np_min (ps.map Prod.snd) ≠ np_max (ps.map Prod.snd) →
      convert_output_eval_coord (np_min (ps.map Prod.snd)) (np_max (ps.map Prod.snd))
          (normalize_coord (np_min (ps.map Prod.snd)) (np_max (ps.map Prod.snd)) jam.2) = jam.2) := by
  refine ⟨fun p hp => ⟨?_, ?_⟩, fun hx => ?_, fun hy => ?_⟩
  · exact roundtrip_coord _ _ _ (Or.inl ⟨np_min_le (List.mem_map_of_mem _ hp),
      le_np_max (List.mem_map_of_mem _ hp)⟩)
  · exact roundtrip_coord _ _ _ (Or.inl ⟨np_min_le (List.mem_map_of_mem _ hp),
      le_np_max (List.mem_map_of_mem _ hp)⟩)
  · exact roundtrip_coord _ _ _ (Or.inr hx)
  · exact roundtrip_coord _ _ _ (Or.inr hy)

/-- Witness for the round-trip theorem on a concrete non-degenerate instance. -/
theorem minmax_roundtrip_witness :
    convert_output_eval_coord (np_min ([((0:ℚ), (0:ℚ)), (3, 4)].map Prod.fst))
        (np_max ([((0:ℚ), (0:ℚ)), (3, 4)].map Prod.fst))
        (normalize_coord (np_min ([((0:ℚ), (0:ℚ)), (3, 4)].map Prod.fst))
          (np_max ([((0:ℚ), (0:ℚ)), (3, 4)].map Prod.fst)) 1) = 1 :=
  (minmax_roundtrip [((0:ℚ), (0:ℚ)), (3, 4)] (1, 2) (by simp)).2.1
    (by norm_num [np_min, np_max])

/-- C10: `Instance.get_crop` returns a new instance whose sequence fields are
exactly the `[start, end)` slices of the original (elementwise, with the expected
lengths), whose `num_samples` equals `end - start`, and whose scalar fields are
copied unchanged.  The embedding is pure, so the original instance is untouched by
construction; the right-hand sides below all read from the original `inst`. -/
theorem get_crop_spec (inst : Instance) (start stop : ℕ)
    (hse : start ≤ stop)
    (h1 : stop ≤ inst.timestamps.length)
    (h2 : stop ≤ inst.node_positions.length)
    (h3 : stop ≤ inst.node_noise.length)
    (h4 : stop ≤ inst.angle_of_arrival.length)
    (h5 : stop ≤ inst.perc_completion_full.length) :
    (inst.get_crop start stop).num_samples = stop - start ∧
    ((inst.get_crop start stop).timestamps.length = stop - start ∧
      (inst.get_crop start stop).node_positions.length = stop - start ∧
      (inst.get_crop start stop).node_noise.length = stop - start ∧
      (inst.get_crop start stop).angle_of_arrival.length = stop - start ∧
      (inst.get_crop start stop).perc_completion_full.length = stop - start) ∧
    (∀ i, start + i < stop →
      (inst.get_crop start stop).timestamps.get? i = inst.timestamps.get? (start + i) ∧
      (inst.get_crop start stop).node_positions.get? i = inst.node_positions.get? (start + i) ∧
      (inst.get_crop start stop).node_noise.get? i = inst.node_noise.get? (start + i) ∧
      (inst.get_crop start stop).angle_of_arrival.get? i = inst.angle_of_arrival.get? (start + i) ∧
      (inst.get_crop start stop).perc_completion_full.get? i =
        inst.perc_completion_full.get? (start + i)) ∧
    ((inst.get_crop start stop).speed = inst.speed ∧
      (inst.get_crop start stop).pl_exp = inst.pl_exp ∧
      (inst.get_crop start stop).sigma = inst.sigma ∧
      (inst.get_crop start stop).alignment_coefficient = inst.alignment_coefficient ∧
      (inst.get_crop start stop).sampling_frequency = inst.sampling_frequency ∧
      (inst.get_crop start stop).jammer_power = inst.jammer_power ∧
      (inst.get_crop start stop).jammer_position = inst.jammer_position ∧
      (inst.get_crop start stop).jammer_gain = inst.jammer_gain ∧
      (inst.get_crop start stop).id = inst.id ∧
      (inst.get_crop start stop).dataset = inst.dataset ∧
      (inst.get_crop start stop).jammed_at = inst.jammed_at) :=
  ⟨rfl,
    ⟨pySlice_length _ _ _ h1, pySlice_length _ _ _ h2, pySlice_length _ _ _ h3,
      pySlice_length _ _ _ h4, pySlice_length _ _ _ h5⟩,
    fun i hi =>
      ⟨pySlice_get? _ _ _ _ hi, pySlice_get? _ _ _ _ hi, pySlice_get? _ _ _ _ hi,
        pySlice_get? _ _ _ _ hi, pySlice_get? _ _ _ _ hi⟩,
    rfl, rfl, rfl, rfl, rfl, rfl, rfl, rfl, rfl, rfl, rfl⟩

/-- A concrete instance used to witness `get_crop_spec`. -/
def instWitness : Instance :=
  { num_samples := 3
    timestamps := [10, 20, 30]
    node_positions := [(0, 0), (1, 1), (2, 2)]
    node_noise := [-50, -60, -70]
    angle_of_arrival := [0, 1, 2]
    speed := 5
    pl_exp := 2
    sigma := 3
    alignment_coefficient := 1
    sampling_frequency := 10
    jammer_power := 25
    jammer_position := [7, 8]
    jammer_gain := 2
    id := 42
    dataset := "static"
    perc_completion_full := [0, 1/2, 1]
    jammed_at := none }

/-- Witness for `get_crop_spec` at a concrete crop `[1, 3)` of a 3-sample instance. -/
theorem get_crop_spec_witness :
    (instWitness.get_crop 1 3).num_samples = 2 ∧
      (instWitness.get_crop 1 3).timestamps.get? 0 = instWitness.timestamps.get? 1 ∧
      (instWitness.get_crop 1 3).speed = instWitness.speed :=
  ⟨(get_crop_spec instWitness 1 3 (by decide) (by decide) (by decide) (by decide)
      (by decide) (by decide)).1,
    ((get_crop_spec instWitness 1 3 (by decide) (by decide) (by decide) (by decide)
      (by decide) (by decide)).2.2.1 0 (by decide)).1,
    (get_crop_spec instWitness 1 3 (by decide) (by decide) (by decide) (by decide)
      (by decide) (by decide)).2.2.2.1⟩

/- ## k-NN edge construction (`create_torch_geo_data`, `data_processing.py`
lines 1209–1228) -/

/-- Squared Euclidean distance between two 2-D points.  `NearestNeighbors` orders
candidates by Euclidean distance, and ordering by the square is equivalent on
nonnegative reals; edge weights are therefore modelled by their squares (the code
stores the square root of this value as the weight). -/
def sqDist {α : Type} [LinearOrderedCommRing α] (p q : α × α) : α :=
  (p.1 - q.1) ^ 2 + (p.2 - q.2) ^ 2

/-- Row `i` of the positions array. -/
def posAt {α : Type} [LinearOrderedCommRing α] (ps : List (α × α)) (i : ℕ) : α × α :=
  ps.getD i (0, 0)

/-- The neighbor columns `indices[i, 1:k+1]` of
`NearestNeighbors(n_neighbors=k + 1).kneighbors(positions)`
(`data_processing.py` lines 1213–1214): with distinct positions, column 0 is the
query point itself (distance 0) and the remaining columns are the `k` other points
nearest to node `i`, in order of distance. -/
def kNeighbors {α : Type} [LinearOrderedCommRing α] (ps : List (α × α)) (k i : ℕ) : List ℕ :=
  (List.insertionSort
      (fun a b => sqDist (posAt ps i) (posAt ps a) ≤ sqDist (posAt ps i) (posAt ps b))
      ((List.range ps.length).filter (fun j => j != i))).take k

/-- One iteration of the edge loop (`data_processing.py` lines 1218–1223): the self
loop `[i, i]` with weight `0`, then for every neighbor `j` of `i` both `[i, j]` and
`[j, i]`, each with the `i`–`j` distance as weight. -/
def edgeGroup {α : Type} [LinearOrderedCommRing α] (ps : List (α × α)) (k i : ℕ) :
    List (ℕ × ℕ × α) :=
  (i, i, 0) :: (kNeighbors ps k i).flatMap (fun j =>
    [(i, j, sqDist (posAt ps i) (posAt ps j)), (j, i, sqDist (posAt ps i) (posAt ps j))])

/-- The full `edge_index` / `edge_weight` list built by `create_torch_geo_data`
for `params['edges'] == 'knn'`, with `k = min(num_neighbors, num_samples - 1)`
(`data_processing.py` lines 1211–1223). -/
def knn_edge_list {α : Type} [LinearOrderedCommRing α] (ps : List (α × α))
    (numNeighbors : ℕ) : List (ℕ × ℕ × α) :=
  (List.range ps.length).flatMap (edgeGroup ps (min numNeighbors (ps.length - 1)))

/-- The distinct neighbors of `v` in an edge list, counting `v` itself (present via
the self loop): the deduplicated targets of edges whose source is `v`. -/
def adjacency {α : Type} [LinearOrderedCommRing α] (es : List (ℕ × ℕ × α)) (v : ℕ) :
    List ℕ :=
  ((es.filter (fun e => e.1 == v)).map (fun e => e.2.1)).dedup

/-- Number of distinct edges at `v` (self loop included) in the k-NN graph. -/
def nodeDegree {α : Type} [LinearOrderedCommRing α] (ps : List (α × α))
    (numNeighbors v : ℕ) : ℕ :=
  (adjacency (knn_edge_list ps numNeighbors) v).length

/-- Ten distinct positions: the origin plus nine points on a radius-≈100 ring at
≈40° spacing.  Every ring point has the origin among its five nearest neighbors,
while the origin's own neighbor list holds only five ring points. -/
def psHub : List (ℤ × ℤ) :=
  [(0, 0), (100, 0), (77, 64), (17, 98), (-50, 87), (-94, 34),
   (-94, -34), (-50, -87), (17, -98), (77, -64)]

/-- C9 (counterexample): on the 10-node instance `psHub` of distinct positions with
`k = 5`, node 0 has ten distinct incident edges (self loop included), not `k + 1 = 6`:
the k-NN relation is not symmetric, and each node that selects 0 as a neighbor
contributes a further edge at 0. -/
theorem knn_degree_not_always_six :
    psHub.length = 10 ∧ psHub.Nodup ∧ nodeDegree psHub 5 0 = 10 := by decide

lemma sqDist_comm {α : Type} [LinearOrderedCommRing α] (p q : α × α) :
    sqDist p q = sqDist q p := by
  unfold sqDist; ring

lemma kNeighbors_sub_filter {α : Type} [LinearOrderedCommRing α]
    (ps : List (α × α)) (k i : ℕ) {x : ℕ} (hx : x ∈ kNeighbors ps k i) :
    x ∈ (List.range ps.length).filter (fun j => j != i) := by
  unfold kNeighbors at hx
  exact (List.Perm.mem_iff (List.perm_insertionSort _ _)).1
    (List.mem_of_mem_take hx)

lemma kNeighbors_ne {α : Type} [LinearOrderedCommRing α]
    (ps : List (α × α)) (k i : ℕ) {x : ℕ} (hx : x ∈ kNeighbors ps k i) : x ≠ i := by
  have h := (List.mem_filter.1 (kNeighbors_sub_filter ps k i hx)).2
  simpa using h

lemma kNeighbors_nodup {α : Type} [LinearOrderedCommRing α]
    (ps : List (α × α)) (k i : ℕ) : (kNeighbors ps k i).Nodup := by
  unfold kNeighbors
  exact List.Nodup.sublist (List.take_sublist _ _)
    ((List.perm_insertionSort _ _).nodup_iff.2 (List.Nodup.filter _ (List.nodup_range _)))

lemma kNeighbors_length {α : Type} [LinearOrderedCommRing α]
    (ps : List (α × α)) (k i : ℕ) (hi : i < ps.length) (hk : k ≤ ps.length - 1) :
    (kNeighbors ps k i).length = k := by
  unfold kNeighbors
  rw [List.length_take, List.length_insertionSort]
  have herase : (List.range ps.length).erase i =
      (List.range ps.length).filter (fun j => j != i) :=
    List.Nodup.erase_eq_filter (List.nodup_range _) i
  rw [← herase, List.length_erase_of_mem (List.mem_range.2 hi), List.length_range]
  omega

lemma mem_knn_edge_list_of_group {α : Type} [LinearOrderedCommRing α]
    (ps : List (α × α)) (numNeighbors i : ℕ) (hi : i < ps.length)
    {e : ℕ × ℕ × α} (he : e ∈ edgeGroup ps (min numNeighbors (ps.length - 1)) i) :
    e ∈ knn_edge_list ps numNeighbors :=
  List.mem_flatMap.2 ⟨i, List.mem_range.2 hi, he⟩

lemma mem_adjacency_iff {α : Type} [LinearOrderedCommRing α]
    (es : List (ℕ × ℕ × α)) (v x : ℕ) :
    x ∈ adjacency es v ↔ ∃ w, (v, x, w) ∈ es := by
  unfold adjacency
  rw [List.mem_dedup, List.mem_map]
  constructor
  · rintro ⟨e, hef, hex⟩
    have h := List.mem_filter.1 hef
    refine ⟨e.2.2, ?_⟩
    have hv : e.1 = v := by simpa using h.2
    have : e = (v, x, e.2.2) := by
      ext
      · exact hv
      · exact hex
      · rfl
    exact this ▸ h.1
  · rintro ⟨w, hw⟩
    exact ⟨(v, x, w), List.mem_filter.2 ⟨hw, by simp⟩, rfl⟩

/-- C9 (amended): for any 10-node instance of distinct positions with `k = 5`,
every node of the constructed graph has at least `k + 1 = 6` distinct incident
edges counting its self loop (exactly six only where the k-NN relation is
symmetric); the edge set is symmetric with equal weights in both directions; and
every edge's weight is the (squared) Euclidean distance between its endpoints, so
in particular every self loop has weight `sqDist p p = 0`. -/
theorem knn_edge_list_spec {α : Type} [LinearOrderedCommRing α]
    (ps : List (α × α)) (hlen : ps.length = 10) (hnd : ps.Nodup) :
    (∀ v, v < ps.length → 6 ≤ nodeDegree ps 5 v) ∧
    (∀ e ∈ knn_edge_list ps 5, (e.2.1, e.1, e.2.2) ∈ knn_edge_list ps 5) ∧
    (∀ e ∈ knn_edge_list ps 5, e.2.2 = sqDist (posAt ps e.1) (posAt ps e.2.1)) := by
  have hk5 : min 5 (ps.length - 1) = 5 := by omega
  refine ⟨?_, ?_, ?_⟩
  · intro v hv
    have hkn : v :: kNeighbors ps 5 v ⊆ adjacency (knn_edge_list ps 5) v := by
      intro x hx
      rcases List.mem_cons.1 hx with h | h
      · subst h
        exact (mem_adjacency_iff _ _ _).2 ⟨0,
          mem_knn_edge_list_of_group ps 5 x hv (hk5 ▸ List.mem_cons_self _ _)⟩
      · refine (mem_adjacency_iff _ _ _).2 ⟨sqDist (posAt ps v) (posAt ps x), ?_⟩
        refine mem_knn_edge_list_of_group ps 5 v hv ?_
        rw [hk5]
        exact List.mem_cons_of_mem _ (List.mem_flatMap.2 ⟨x, h, List.mem_cons_self _ _⟩)
    have hnodup : (v :: kNeighbors ps 5 v).Nodup := by
      refine List.nodup_cons.2 ⟨fun hmem => ?_, kNeighbors_nodup ps 5 v⟩
      exact (kNeighbors_ne ps 5 v hmem) rfl
    have hlen6 : (v :: kNeighbors ps 5 v).length = 6 := by
      rw [List.length_cons, kNeighbors_length ps 5 v hv (by omega)]
    have hcard1 : (v :: kNeighbors ps 5 v).toFinset.card = 6 := by
      rw [List.toFinset_card_of_nodup hnodup, hlen6]
    have hcard2 : (adjacency (knn_edge_list ps 5) v).toFinset.card =
        nodeDegree ps 5 v :=
      List.toFinset_card_of_nodup (by unfold adjacency; exact List.nodup_dedup _)
    calc 6 = (v :: kNeighbors ps 5 v).toFinset.card := hcard1.symm
      _ ≤ (adjacency (knn_edge_list ps 5) v).toFinset.card := by
          refine Finset.card_le_card ?_
          intro x hx
          exact List.mem_toFinset.2 (hkn (List.mem_toFinset.1 hx))
      _ = nodeDegree ps 5 v := hcard2
  · intro e he
    rcases List.mem_flatMap.1 he with ⟨i, hi, hgi⟩
    rcases List.mem_cons.1 hgi with h | h
    · subst h
      exact List.mem_flatMap.2 ⟨i, hi, List.mem_cons_self _ _⟩
    · rcases List.mem_flatMap.1 h with ⟨j, hj, hpair⟩
      rcases List.mem_cons.1 hpair with h1 | h1
      · subst h1
        refine List.mem_flatMap.2 ⟨i, hi, List.mem_cons_of_mem _ ?_⟩
        exact List.mem_flatMap.2 ⟨j, hj, List.mem_cons_of_mem _ (List.mem_cons_self _ _)⟩
      · rcases List.mem_cons.1 h1 with h2 | h2
        · subst h2
          refine List.mem_flatMap.2 ⟨i, hi, List.mem_cons_of_mem _ ?_⟩
          exact List.mem_flatMap.2 ⟨j, hj, List.mem_cons_self _ _⟩
        · cases h2
  · intro e he
    rcases List.mem_flatMap.1 he with ⟨i, hi, hgi⟩
    rcases List.mem_cons.1 hgi with h | h
    · subst h
      show (0 : α) = sqDist (posAt ps i) (posAt ps i)
      unfold sqDist; ring
    · rcases List.mem_flatMap.1 h with ⟨j, hj, hpair⟩
      rcases List.mem_cons.1 hpair with h1 | h1
      · subst h1; rfl
      · rcases List.mem_cons.1 h1 with h2 | h2
        · subst h2
          exact sqDist_comm (posAt ps i) (posAt ps j)
        · cases h2

/-- Witness for `knn_edge_list_spec` at the concrete instance `psHub`: node 1 has at
least six distinct incident edges. -/
theorem knn_edge_list_spec_witness : 6 ≤ nodeDegree psHub 5 1 :=
  (knn_edge_list_spec psHub (by decide) (by decide)).1 1 (by decide)

/- ## Radio constants and path loss (`generator.py` lines 9–63) -/

/-- `LIGHT_SPEED = 3e8` (m/s). -/
noncomputable def LIGHT_SPEED : ℝ := 3e8

/-- `FREQUENCY = 2.4e9` (Hz); the generator switches to 5 GHz after 10000
instances, but every claim here is invariant in the exact value. -/
noncomputable def FREQUENCY : ℝ := 2.4e9

/-- `NOISE_LEVEL = -100` (dBm), the ambient noise level. -/
noncomputable def NOISE_LEVEL : ℝ := -100

/-- `REFERENCE_SINR = 10` (dB). -/
noncomputable def REFERENCE_SINR : ℝ := 10

/-- `NOISE_THRESHOLD = -55` (dBm), the jamming detection threshold. -/
noncomputable def NOISE_THRESHOLD : ℝ := -55

/-- `RSSI_THRESHOLD = -80` (dBm), the minimum usable RSSI. -/
noncomputable def RSSI_THRESHOLD : ℝ := -80

/-- `np.finfo(float).eps = 2 ** -52`, substituted for zero distances. -/
noncomputable def np_eps : ℝ := 2 ^ (-52 : ℤ)

/-- `dbm_to_linear` (`generator.py` lines 22–24): `10 ** (dbm / 10)`. -/
noncomputable def dbm_to_linear (dbm : ℝ) : ℝ := (10 : ℝ) ^ (dbm / 10)

/-- `linear_to_db` (`generator.py` lines 27–29): `10 * np.log10(linear)`. -/
noncomputable def linear_to_db (lin : ℝ) : ℝ := 10 * Real.logb 10 lin

/-- `free_space_path_loss` (`generator.py` lines 43–47): zero distances are
replaced by machine epsilon, then
`20*log10(d) + 20*log10(FREQUENCY) + 20*log10(4*pi/LIGHT_SPEED)`. -/
noncomputable def free_space_path_loss (d : ℝ) : ℝ :=
  20 * Real.logb 10 (if d = 0 then np_eps else d) + 20 * Real.logb 10 FREQUENCY +
    20 * Real.logb 10 (4 * Real.pi / LIGHT_SPEED)

/-- `np.linalg.norm(p - q)` for 2-D points. -/
noncomputable def np_norm (p q : ℝ × ℝ) : ℝ :=
  Real.sqrt ((p.1 - q.1) ^ 2 + (p.2 - q.2) ^ 2)

/-- `np.linspace(a, b, num, endpoint=True)` on 2-D points: `a + (b - a) * t / (num - 1)`
for `t = 0, …, num - 1`. -/
noncomputable def np_linspace2 (a b : ℝ × ℝ) (num : ℕ) : List (ℝ × ℝ) :=
  (List.range num).map (fun t : ℕ =>
    (a.1 + (b.1 - a.1) * (t : ℝ) / ((num : ℝ) - 1),
     a.2 + (b.2 - a.2) * (t : ℝ) / ((num : ℝ) - 1)))

/-- Running maximum initialised with `-np.inf`; on the (always nonempty) lists it
is applied to, this equals the list maximum. -/
noncomputable def maxD : List ℝ → ℝ
  | [] => 0
  | x :: xs => xs.foldl max x

/-- `sample_path_jamming` (`generator.py` lines 50–63), deterministic `fspl`
branch: interpolate 10 points between the two node positions and take the maximal
jamming power `P_tx_jammer + G_tx_jammer + G_rx - free_space_path_loss(dist)` over
the distances from those points to `jammer_pos`. -/
noncomputable def sample_path_jamming (node_pos_i node_pos_j jammer_pos : ℝ × ℝ)
    (ptx_jam gtx_jam grx : ℝ) : ℝ :=
  maxD ((np_linspace2 node_pos_i node_pos_j 10).map (fun point =>
    ptx_jam + gtx_jam + grx - free_space_path_loss (np_norm point jammer_pos)))

/- ## One generated scenario (`generator.py` lines 254–371) -/

/-- The per-scenario inputs of the simulation loop: node and jammer positions and
the sampled radio parameters. -/
structure Scenario where
  node_positions : List (ℝ × ℝ)
  jammer_position : ℝ × ℝ
  P_tx : ℝ
  G_tx : ℝ
  G_rx : ℝ
  P_tx_jammer : ℝ
  G_tx_jammer : ℝ

/-- Row `i` of `node_positions`. -/
noncomputable def posR (S : Scenario) (i : ℕ) : ℝ × ℝ := S.node_positions.getD i (0, 0)

/-- `jammer_dist[i] = np.linalg.norm(node_positions - jammer_position)[i]`
(`generator.py` line 300): the direct node-to-jammer distance. -/
noncomputable def jammer_dist (S : Scenario) (i : ℕ) : ℝ :=
  np_norm (posR S i) S.jammer_position

/-- `rssi_jammer[i] = P_tx_jammer + G_tx_jammer + G_rx - path_loss_jammer[i]`
(`generator.py` lines 308 and 312). -/
noncomputable def rssi_jammer (S : Scenario) (i : ℕ) : ℝ :=
  S.P_tx_jammer + S.G_tx_jammer + S.G_rx - free_space_path_loss (jammer_dist S i)

/-- `noise_floor_dB[i]` (`generator.py` lines 359–365): the per-node noise floor in
dB, `linear_to_db(dbm_to_linear(rssi_jammer) + dbm_to_linear(NOISE_LEVEL))`. -/
noncomputable def noise_floor_dB (S : Scenario) (i : ℕ) : ℝ :=
  linear_to_db (dbm_to_linear (rssi_jammer S i) + dbm_to_linear NOISE_LEVEL)

/-- `jammed[i] = noise_floor_dB[i] > NOISE_THRESHOLD` (`generator.py` line 371). -/
def jammedNode (S : Scenario) (i : ℕ) : Prop := noise_floor_dB S i > NOISE_THRESHOLD

/-- Entry `(i, j)`, `i ≠ j`, of `max_jammer_rssi_matrix` (`generator.py` lines
316–324): filled for `i < j` by `sample_path_jamming(node_positions[i],
node_positions[j], jammer_position[0], …)` and mirrored.  Note the call passes
`jammer_position[0]` — the scalar x-coordinate — so inside `sample_path_jamming`
numpy broadcasting computes each sample point's distance to the point `(jx, jx)`,
not to the jammer `(jx, jy)`. -/
noncomputable def max_jammer_rssi (S : Scenario) (i j : ℕ) : ℝ :=
  sample_path_jamming (posR S (min i j)) (posR S (max i j))
    (S.jammer_position.1, S.jammer_position.1) S.P_tx_jammer S.G_tx_jammer S.G_rx

/-- Modelled from the spec for comparison: the representative link jamming power
with each sampled point's distance taken to the actual two-dimensional jammer
position, as the claim and `spec.md` describe. -/
noncomputable def spec_link_jamming_power (S : Scenario) (i j : ℕ) : ℝ :=
  sample_path_jamming (posR S (min i j)) (posR S (max i j))
    S.jammer_position S.P_tx_jammer S.G_tx_jammer S.G_rx

/-- `rssi_matrix[i, j] = P_tx + G_tx + G_rx - path_loss[i, j]` (`generator.py`
lines 307 and 311). -/
noncomputable def rssi_link (S : Scenario) (i j : ℕ) : ℝ :=
  S.P_tx + S.G_tx + S.G_rx - free_space_path_loss (np_norm (posR S i) (posR S j))

/-- `sinr_db_matrix[i, j]` (`generator.py` lines 327–339): linear link RSSI over
`dbm_to_linear(NOISE_LEVEL) + jammer_power_linear`, converted back to dB. -/
noncomputable def sinr_db (S : Scenario) (i j : ℕ) : ℝ :=
  linear_to_db (dbm_to_linear (rssi_link S i j) /
    (dbm_to_linear NOISE_LEVEL + dbm_to_linear (max_jammer_rssi S i j)))

/-- `rssi_affected_matrix[i, j]` (`generator.py` lines 342–343):
`np.minimum(rssi, rssi - (REFERENCE_SINR - sinr_db))` clamped below at
`RSSI_THRESHOLD`. -/
noncomputable def rssi_affected (S : Scenario) (i j : ℕ) : ℝ :=
  max (min (rssi_link S i j) (rssi_link S i j - (REFERENCE_SINR - sinr_db S i j)))
    RSSI_THRESHOLD

/-- `np.nanmax(rssi_affected_matrix, axis=1)[i]` after `np.fill_diagonal(…, np.nan)`
(`generator.py` lines 346–350): the maximum over the valid (off-diagonal) entries
of row `i`, or NaN (`none`) if the node has no peers. -/
noncomputable def affected_rssi_opt (S : Scenario) (i : ℕ) : Option ℝ :=
  match ((List.range S.node_positions.length).filter (fun j => j != i)).map
      (rssi_affected S i) with
  | [] => none
  | x :: xs => some (xs.foldl max x)

/-- `disconnected[i] = np.isnan(affected_rssi)[i]` (`generator.py` line 354). -/
noncomputable def disconnected (S : Scenario) (i : ℕ) : Bool :=
  (affected_rssi_opt S i).isNone

/-- `affected_rssi[i]` after `np.nan_to_num(…, nan=RSSI_THRESHOLD)` (`generator.py`
line 356): NaN rows are replaced by the RSSI floor. -/
noncomputable def final_affected_rssi (S : Scenario) (i : ℕ) : ℝ :=
  (affected_rssi_opt S i).getD RSSI_THRESHOLD

/- ## Scenario acceptance (`generator.py` lines 373–408) -/

section
open Classical

/-- `jammed_nodes`' count `np.sum(jammed)` (`generator.py` line 373). -/
noncomputable def jammed_count (S : Scenario) : ℕ :=
  (List.range S.node_positions.length).countP (fun i => decide (jammedNode S i))

/-- `not_jammed_nodes`' count `np.sum(~jammed)` (`generator.py` line 374). -/
noncomputable def not_jammed_count (S : Scenario) : ℕ :=
  (List.range S.node_positions.length).countP (fun i => decide (¬ jammedNode S i))

/-- `high_rssi_nodes`' count `np.sum(affected_rssi > -80)` (`generator.py` line 376). -/
noncomputable def high_rssi_count (S : Scenario) : ℕ :=
  (List.range S.node_positions.length).countP
    (fun i => decide (final_affected_rssi S i > -80))

end

/-- `conditions_met` in non-`ALL_JAMMED` mode (`generator.py` lines 373–382):
at least 3 jammed nodes, at least 1 unjammed node, at least 1 node above the RSSI
floor. -/
def conditions_met (S : Scenario) : Prop :=
  3 ≤ jammed_count S ∧ 1 ≤ not_jammed_count S ∧ 1 ≤ high_rssi_count S

/-- A scenario appears in the (non-`ALL_JAMMED`) dataset exactly when the
generation loop produced it and `conditions_met` held, in which case it is appended
(`generator.py` lines 384–408); rejected scenarios are discarded entirely. -/
def appended_to_dataset (generated : List Scenario) (S : Scenario) : Prop :=
  S ∈ generated ∧ conditions_met S

/-- C2: every scenario appended to a non-"all-jammed" dataset satisfies all three
acceptance predicates: at least 3 jammed nodes, at least 1 unjammed node, and at
least one node with effective RSSI strictly above -80 dBm.  Contrapositively, a
scenario with fewer than 3 jammed nodes or no unjammed node never appears. -/
theorem appended_scenario_satisfies_acceptance (generated : List Scenario)
    (S : Scenario) (h : appended_to_dataset generated S) :
    3 ≤ jammed_count S ∧ 1 ≤ not_jammed_count S ∧
      ∃ i, i < S.node_positions.length ∧ final_affected_rssi S i > -80 := by
  refine ⟨h.2.1, h.2.2.1, ?_⟩
  have hp : 0 < (List.range S.node_positions.length).countP
      (fun i => decide (final_affected_rssi S i > -80)) := h.2.2.2
  rcases List.countP_pos.1 hp with ⟨i, hi, hpi⟩
  exact ⟨i, List.mem_range.1 hi, of_decide_eq_true hpi⟩

/-- C4: the per-node noise floor is computed from the direct node-to-jammer path
loss only — the linear jammer receive power plus the ambient noise constant
`-100` dBm, converted to dB — with no reference to the worst-case-sampled link
matrix; and the jammed flag holds iff this noise floor strictly exceeds -55 dBm. -/
theorem noise_floor_from_direct_path (S : Scenario) (i : ℕ) :
    noise_floor_dB S i =
      10 * Real.logb 10 ((10 : ℝ) ^ ((S.P_tx_jammer + S.G_tx_jammer + S.G_rx -
          free_space_path_loss (np_norm (posR S i) S.jammer_position)) / 10) +
        (10 : ℝ) ^ ((-100 : ℝ) / 10)) ∧
    (jammedNode S i ↔ noise_floor_dB S i > -55) :=
  ⟨rfl, Iff.rfl⟩

/- ### Facts about logarithms, the path-loss constant and running maxima -/

lemma logb10_rpow (x : ℝ) : Real.logb 10 ((10 : ℝ) ^ x) = x :=
  Real.logb_rpow (by norm_num) (by norm_num)

lemma rpow10_pos (x : ℝ) : 0 < (10 : ℝ) ^ x :=
  Real.rpow_pos_of_pos (by norm_num) x

lemma rpow10_le_rpow10 {x y : ℝ} (h : x ≤ y) : (10 : ℝ) ^ x ≤ (10 : ℝ) ^ y :=
  Real.rpow_le_rpow_left_iff (by norm_num : (1:ℝ) < 10) |>.2 h

/-- For nonzero distances the path loss takes the plain logarithmic form, the
frequency and geometry terms collapsing into `20 * logb 10 (32π)`
(`2.4e9 * 4π / 3e8 = 32π`). -/
lemma free_space_path_loss_eq (d : ℝ) (hd : d ≠ 0) :
    free_space_path_loss d =
      20 * Real.logb 10 d + 20 * Real.logb 10 (32 * Real.pi) := by
  unfold free_space_path_loss FREQUENCY LIGHT_SPEED
  rw [if_neg hd]
  have h1 : (2.4e9 : ℝ) ≠ 0 := by norm_num
  have h2 : 4 * Real.pi / (3e8 : ℝ) ≠ 0 := by positivity
  have hcomb : 20 * Real.logb 10 (2.4e9 : ℝ) + 20 * Real.logb 10 (4 * Real.pi / 3e8) =
      20 * Real.logb 10 (32 * Real.pi) := by
    rw [← mul_add, ← Real.logb_mul h1 h2,
      show (2.4e9 : ℝ) * (4 * Real.pi / 3e8) = 32 * Real.pi by field_simp; ring]
  linarith [hcomb]

/-- The collapsed constant `20 * logb 10 (32π)` lies strictly between 40 and 60. -/
lemma fspl_const_bounds :
    40 < 20 * Real.logb 10 (32 * Real.pi) ∧ 20 * Real.logb 10 (32 * Real.pi) < 60 := by
  have h100 : (100 : ℝ) < 32 * Real.pi := by nlinarith [Real.pi_gt_314]
  have h1000 : 32 * Real.pi < 1000 := by nlinarith [Real.pi_lt_315]
  have e2 : Real.logb 10 (100 : ℝ) = 2 := by
    rw [show (100 : ℝ) = (10 : ℝ) ^ (2 : ℝ) by
      rw [show (2 : ℝ) = ((2 : ℕ) : ℝ) by norm_num, Real.rpow_natCast]; norm_num]
    exact logb10_rpow 2
  have e3 : Real.logb 10 (1000 : ℝ) = 3 := by
    rw [show (1000 : ℝ) = (10 : ℝ) ^ (3 : ℝ) by
      rw [show (3 : ℝ) = ((3 : ℕ) : ℝ) by norm_num, Real.rpow_natCast]; norm_num]
    exact logb10_rpow 3
  constructor
  · have := Real.logb_lt_logb (by norm_num : (1:ℝ) < 10) (by norm_num) h100
    rw [e2] at this
    linarith
  · have := Real.logb_lt_logb (by norm_num : (1:ℝ) < 10) (by positivity) h1000
    rw [e3] at this
    linarith

lemma fspl_strict_mono {d1 d2 : ℝ} (h1 : 0 < d1) (h12 : d1 < d2) :
    free_space_path_loss d1 < free_space_path_loss d2 := by
  rw [free_space_path_loss_eq d1 (ne_of_gt h1),
    free_space_path_loss_eq d2 (ne_of_gt (h1.trans h12))]
  have := Real.logb_lt_logb (by norm_num : (1:ℝ) < 10) h1 h12
  linarith

lemma fspl_mono {d1 d2 : ℝ} (h1 : 0 < d1) (h12 : d1 ≤ d2) :
    free_space_path_loss d1 ≤ free_space_path_loss d2 := by
  rcases eq_or_lt_of_le h12 with h | h
  · rw [h]
  · exact le_of_lt (fspl_strict_mono h1 h)

/-- The noise floor in dB is at least the jammer RSSI in dBm: the ambient term
only adds power. -/
lemma rssi_jammer_le_noise_floor (S : Scenario) (i : ℕ) :
    rssi_jammer S i ≤ noise_floor_dB S i := by
  unfold noise_floor_dB linear_to_db dbm_to_linear NOISE_LEVEL
  have hA : 0 < (10 : ℝ) ^ (rssi_jammer S i / 10) := rpow10_pos _
  have hB : 0 < (10 : ℝ) ^ ((-100 : ℝ) / 10) := rpow10_pos _
  have hle : Real.logb 10 ((10 : ℝ) ^ (rssi_jammer S i / 10)) ≤
      Real.logb 10 ((10 : ℝ) ^ (rssi_jammer S i / 10) + (10 : ℝ) ^ ((-100 : ℝ) / 10)) :=
    (Real.logb_le_logb (by norm_num) hA (by linarith)).2 (by linarith)
  rw [logb10_rpow] at hle
  linarith

/-- Upper bound for the noise floor: if the linear sum is at most `10 ^ e` the dB
value is at most `10 * e`. -/
lemma noise_floor_le_of_le (S : Scenario) (i : ℕ) (e : ℝ)
    (h : (10 : ℝ) ^ (rssi_jammer S i / 10) + (10 : ℝ) ^ ((-100 : ℝ) / 10) ≤ (10 : ℝ) ^ e) :
    noise_floor_dB S i ≤ 10 * e := by
  unfold noise_floor_dB linear_to_db dbm_to_linear NOISE_LEVEL
  have hA : 0 < (10 : ℝ) ^ (rssi_jammer S i / 10) := rpow10_pos _
  have hB : 0 < (10 : ℝ) ^ ((-100 : ℝ) / 10) := rpow10_pos _
  have hle : Real.logb 10 ((10 : ℝ) ^ (rssi_jammer S i / 10) + (10 : ℝ) ^ ((-100 : ℝ) / 10)) ≤
      Real.logb 10 ((10 : ℝ) ^ e) :=
    (Real.logb_le_logb (by norm_num) (by linarith) (rpow10_pos _)).2 h
  rw [logb10_rpow] at hle
  linarith

lemma np_linspace2_self (p : ℝ × ℝ) (n : ℕ) :
    np_linspace2 p p n = List.replicate n p := by
  unfold np_linspace2
  have hf : (fun t : ℕ => (p.1 + (p.1 - p.1) * (t : ℝ) / ((n : ℝ) - 1),
      p.2 + (p.2 - p.2) * (t : ℝ) / ((n : ℝ) - 1))) = fun _ : ℕ => p := by
    funext t
    simp
  rw [hf, List.map_const', List.length_range]

lemma foldl_max_replicate (v : ℝ) : ∀ m : ℕ, (List.replicate m v).foldl max v = v := by
  intro m
  induction m with
  | zero => rfl
  | succ k ih => rw [List.replicate_succ, List.foldl_cons, max_self]; exact ih

lemma maxD_replicate (n : ℕ) (hn : n ≠ 0) (v : ℝ) : maxD (List.replicate n v) = v := by
  cases n with
  | zero => exact absurd rfl hn
  | succ k =>
      rw [List.replicate_succ]
      show (List.replicate k v).foldl max v = v
      exact foldl_max_replicate v k

/-- With coincident endpoints every sampled point is that endpoint, so the
worst-case power is the power at the single distance to `jammer_pos`. -/
lemma sample_path_jamming_self (p jam : ℝ × ℝ) (a b c : ℝ) :
    sample_path_jamming p p jam a b c =
      a + b + c - free_space_path_loss (np_norm p jam) := by
  unfold sample_path_jamming
  rw [np_linspace2_self, List.map_replicate]
  exact maxD_replicate 10 (by norm_num) _

/-- Two coincident nodes at the origin, jammer at `(3, 4)`, jammer power 20 dBm,
zero gains. -/
noncomputable def S_pair : Scenario :=
  { node_positions := [(0, 0), (0, 0)]
    jammer_position := (3, 4)
    P_tx := 20
    G_tx := 0
    G_rx := 0
    P_tx_jammer := 20
    G_tx_jammer := 0 }

/-- C1 (code evaluation at the failing input): with both endpoints at the origin
and the jammer at `(3, 4)`, the matrix entry computed by the code measures the
distance to the broadcast point `(3, 3)` — giving `20 - FSPL(√18)` — while the
claimed formula measures the distance `5` to the jammer, giving `20 - FSPL(5)`.
Free-space loss is strictly monotone and `√18 < 5`, so the two values differ. -/
theorem max_jammer_rssi_uses_broadcast_scalar :
    max_jammer_rssi S_pair 0 1 = 20 - free_space_path_loss (Real.sqrt 18) ∧
    spec_link_jamming_power S_pair 0 1 = 20 - free_space_path_loss 5 ∧
    max_jammer_rssi S_pair 0 1 ≠ spec_link_jamming_power S_pair 0 1 := by
  have h18 : np_norm ((0:ℝ), (0:ℝ)) ((3:ℝ), (3:ℝ)) = Real.sqrt 18 := by
    unfold np_norm
    norm_num
  have h5 : np_norm ((0:ℝ), (0:ℝ)) ((3:ℝ), (4:ℝ)) = 5 := by
    unfold np_norm
    norm_num
    rw [show (25:ℝ) = 5 ^ 2 by norm_num, Real.sqrt_sq (by norm_num : (0:ℝ) ≤ 5)]
  have e1 : max_jammer_rssi S_pair 0 1 = 20 - free_space_path_loss (Real.sqrt 18) := by
    unfold max_jammer_rssi
    show sample_path_jamming ((0:ℝ), (0:ℝ)) ((0:ℝ), (0:ℝ)) ((3:ℝ), (3:ℝ)) 20 0 0 = _
    rw [sample_path_jamming_self, h18]
    ring
  have e2 : spec_link_jamming_power S_pair 0 1 = 20 - free_space_path_loss 5 := by
    unfold spec_link_jamming_power
    show sample_path_jamming ((0:ℝ), (0:ℝ)) ((0:ℝ), (0:ℝ)) ((3:ℝ), (4:ℝ)) 20 0 0 = _
    rw [sample_path_jamming_self, h5]
    ring
  have hlt : free_space_path_loss (Real.sqrt 18) < free_space_path_loss 5 :=
    fspl_strict_mono (Real.sqrt_pos.2 (by norm_num))
      ((Real.sqrt_lt' (by norm_num : (0:ℝ) < 5)).2 (by norm_num))
  refine ⟨e1, e2, ?_⟩
  rw [e1, e2]
  intro heq
  have : free_space_path_loss (Real.sqrt 18) = free_space_path_loss 5 := by linarith
  linarith

/-- A single node at the origin with the jammer one meter away. -/
noncomputable def S_single : Scenario :=
  { node_positions := [(0, 0)]
    jammer_position := (1, 0)
    P_tx := 20
    G_tx := 0
    G_rx := 0
    P_tx_jammer := 20
    G_tx_jammer := 0 }

/-- C5 (counterexample): the single node of `S_single` has no peers, so the code
marks it disconnected — yet its jammed flag is still true, because the flag is
computed from the direct node–jammer noise floor (here above -55 dBm) with no
reference to connectivity.  The claim's "is not flagged jammed" fails. -/
theorem disconnected_node_flagged_jammed :
    disconnected S_single 0 = true ∧ jammedNode S_single 0 := by
  constructor
  · rfl
  · unfold jammedNode NOISE_THRESHOLD
    have hd : jammer_dist S_single 0 = 1 := by
      simp [jammer_dist, posR, S_single, np_norm]
    have hr : rssi_jammer S_single 0 = 20 - free_space_path_loss 1 := by
      unfold rssi_jammer
      rw [hd]
      norm_num [S_single]
    have hfspl1 : free_space_path_loss 1 = 20 * Real.logb 10 (32 * Real.pi) := by
      rw [free_space_path_loss_eq 1 one_ne_zero, Real.logb_one]
      ring
    have hub := fspl_const_bounds.2
    have hge := rssi_jammer_le_noise_floor S_single 0
    rw [hr, hfspl1] at hge
    linarith

/-- C5 (amended): a node with no valid peer links is marked disconnected and its
persisted effective RSSI is the floor `RSSI_THRESHOLD = -80` dBm rather than NaN;
the jammed flag, however, is computed from the direct node–jammer path
independently of connectivity and may still be true for such a node. -/
theorem disconnected_gets_floor_rssi (S : Scenario) (i : ℕ)
    (h : disconnected S i = true) :
    final_affected_rssi S i = RSSI_THRESHOLD := by
  unfold disconnected at h
  unfold final_affected_rssi
  rw [Option.isNone_iff_eq_none.1 h]
  rfl

/-- Witness for `disconnected_gets_floor_rssi` at the one-node scenario. -/
theorem disconnected_gets_floor_rssi_witness :
    final_affected_rssi S_single 0 = RSSI_THRESHOLD :=
  disconnected_gets_floor_rssi S_single 0 rfl

lemma logb10_1000 : Real.logb 10 (1000 : ℝ) = 3 := by
  rw [show (1000 : ℝ) = (10 : ℝ) ^ (3 : ℝ) by
    rw [show (3 : ℝ) = ((3 : ℕ) : ℝ) by norm_num, Real.rpow_natCast]; norm_num]
  exact logb10_rpow 3

lemma linear_to_db_ge_of {e x : ℝ} (h : (10 : ℝ) ^ e ≤ x) : 10 * e ≤ linear_to_db x := by
  unfold linear_to_db
  have hle : Real.logb 10 ((10 : ℝ) ^ e) ≤ Real.logb 10 x :=
    (Real.logb_le_logb (by norm_num) (rpow10_pos e) (lt_of_lt_of_le (rpow10_pos e) h)).2 h
  rw [logb10_rpow] at hle
  linarith

lemma maxD_le_of_forall (l : List ℝ) (B : ℝ) (hne : l ≠ [])
    (h : ∀ x ∈ l, x ≤ B) : maxD l ≤ B := by
  cases l with
  | nil => exact absurd rfl hne
  | cons x xs =>
      show xs.foldl max x ≤ B
      rcases foldl_max_eq_init_or_mem xs x with heq | hmem
      · rw [heq]; exact h x (List.mem_cons_self _ _)
      · exact h _ (List.mem_cons_of_mem _ hmem)

/-- A node exactly one meter from a 20 dBm jammer with zero gains is jammed. -/
lemma jammed_of_unit_distance (S : Scenario) (i : ℕ) (hd : jammer_dist S i = 1)
    (hP : S.P_tx_jammer = 20) (hG : S.G_tx_jammer = 0) (hGr : S.G_rx = 0) :
    jammedNode S i := by
  unfold jammedNode NOISE_THRESHOLD
  have hr : rssi_jammer S i = 20 - free_space_path_loss 1 := by
    unfold rssi_jammer
    rw [hd, hP, hG, hGr]
    ring
  have hfspl1 : free_space_path_loss 1 = 20 * Real.logb 10 (32 * Real.pi) := by
    rw [free_space_path_loss_eq 1 one_ne_zero, Real.logb_one]
    ring
  have hge := rssi_jammer_le_noise_floor S i
  rw [hr, hfspl1] at hge
  linarith [fspl_const_bounds.2]

/-- Five nodes: three on the unit circle around the jammer at the origin (these are
jammed), and two adjacent nodes 1000 m away (unjammed, able to communicate). -/
noncomputable def S_mixed : Scenario :=
  { node_positions := [(1, 0), (0, 1), (-1, 0), (1000, 0), (1001, 0)]
    jammer_position := (0, 0)
    P_tx := 20
    G_tx := 0
    G_rx := 0
    P_tx_jammer := 20
    G_tx_jammer := 0 }

lemma S_mixed_jammed_0 : jammedNode S_mixed 0 := by
  refine jammed_of_unit_distance S_mixed 0 ?_ rfl rfl rfl
  simp [jammer_dist, posR, S_mixed, np_norm]

lemma S_mixed_jammed_1 : jammedNode S_mixed 1 := by
  refine jammed_of_unit_distance S_mixed 1 ?_ rfl rfl rfl
  simp [jammer_dist, posR, S_mixed, np_norm]

lemma S_mixed_jammed_2 : jammedNode S_mixed 2 := by
  refine jammed_of_unit_distance S_mixed 2 ?_ rfl rfl rfl
  simp [jammer_dist, posR, S_mixed, np_norm]

lemma S_mixed_fspl_1000 :
    free_space_path_loss 1000 = 60 + 20 * Real.logb 10 (32 * Real.pi) := by
  rw [free_space_path_loss_eq 1000 (by norm_num), logb10_1000]
  ring

lemma S_mixed_dist_3 : jammer_dist S_mixed 3 = 1000 := by
  simp [jammer_dist, posR, S_mixed, np_norm]

lemma S_mixed_rssi_jammer_3 :
    rssi_jammer S_mixed 3 = -40 - 20 * Real.logb 10 (32 * Real.pi) := by
  unfold rssi_jammer
  rw [S_mixed_dist_3, S_mixed_fspl_1000]
  show (20 : ℝ) + 0 + 0 - _ = _
  ring

lemma S_mixed_not_jammed_3 : ¬ jammedNode S_mixed 3 := by
  unfold jammedNode NOISE_THRESHOLD
  rw [not_lt]
  have hC := fspl_const_bounds.1
  have hle : noise_floor_dB S_mixed 3 ≤ 10 * (-11 / 2 : ℝ) := by
    apply noise_floor_le_of_le
    have hA : (10 : ℝ) ^ (rssi_jammer S_mixed 3 / 10) ≤ (10 : ℝ) ^ (-8 : ℝ) := by
      apply rpow10_le_rpow10
      rw [S_mixed_rssi_jammer_3]
      linarith
    have hB : (10 : ℝ) ^ ((-100 : ℝ) / 10) ≤ (10 : ℝ) ^ (-8 : ℝ) :=
      rpow10_le_rpow10 (by norm_num)
    have h2 : (10 : ℝ) ^ (-8 : ℝ) + (10 : ℝ) ^ (-8 : ℝ) ≤ (10 : ℝ) ^ (-6 : ℝ) := by
      have he : (10 : ℝ) ^ (-6 : ℝ) = (10 : ℝ) ^ (2 : ℝ) * (10 : ℝ) ^ (-8 : ℝ) := by
        rw [← Real.rpow_add (by norm_num : (0:ℝ) < 10)]
        norm_num
      have h100 : (10 : ℝ) ^ (2 : ℝ) = 100 := by
        rw [show (2 : ℝ) = ((2 : ℕ) : ℝ) by norm_num, Real.rpow_natCast]
        norm_num
      rw [he, h100]
      nlinarith [rpow10_pos (-8 : ℝ)]
    have h3 : (10 : ℝ) ^ (-6 : ℝ) ≤ (10 : ℝ) ^ (-11 / 2 : ℝ) :=
      rpow10_le_rpow10 (by norm_num)
    linarith
  linarith

lemma np_norm_fst_le (p q : ℝ × ℝ) : |p.1 - q.1| ≤ np_norm p q := by
  unfold np_norm
  rw [← Real.sqrt_sq_eq_abs]
  apply Real.sqrt_le_sqrt
  nlinarith [sq_nonneg (p.2 - q.2)]

lemma S_mixed_link_34 : rssi_link S_mixed 3 4 = 20 - free_space_path_loss 1 := by
  unfold rssi_link
  have hn : np_norm (posR S_mixed 3) (posR S_mixed 4) = 1 := by
    simp [posR, S_mixed, np_norm]
    norm_num
  rw [hn]
  show (20 : ℝ) + 0 + 0 - _ = _
  ring

lemma S_mixed_max_jammer_34 :
    max_jammer_rssi S_mixed 3 4 ≤ -40 - 20 * Real.logb 10 (32 * Real.pi) := by
  unfold max_jammer_rssi
  show sample_path_jamming ((1000 : ℝ), (0 : ℝ)) ((1001 : ℝ), (0 : ℝ)) ((0 : ℝ), (0 : ℝ))
      20 0 0 ≤ _
  unfold sample_path_jamming
  apply maxD_le_of_forall
  · simp [np_linspace2]
  · intro x hx
    rcases List.mem_map.1 hx with ⟨q, hq, rfl⟩
    rcases List.mem_map.1 hq with ⟨t, ht, rfl⟩
    have htnn : (0 : ℝ) ≤ (t : ℝ) := Nat.cast_nonneg t
    have hq1 : (1000 : ℝ) ≤ (1000 : ℝ) + ((1001 : ℝ) - 1000) * (t : ℝ) / (((10 : ℕ) : ℝ) - 1) := by
      norm_num
      positivity
    have hdist : (1000 : ℝ) ≤ np_norm
        ((1000 : ℝ) + ((1001 : ℝ) - 1000) * (t : ℝ) / (((10 : ℕ) : ℝ) - 1),
         (0 : ℝ) + ((0 : ℝ) - 0) * (t : ℝ) / (((10 : ℕ) : ℝ) - 1)) ((0 : ℝ), (0 : ℝ)) := by
      refine le_trans ?_ (np_norm_fst_le _ _)
      have hle := le_abs_self ((1000 : ℝ) + ((1001 : ℝ) - 1000) * (t : ℝ) /
        (((10 : ℕ) : ℝ) - 1) - 0)
      have : (1000 : ℝ) ≤ (1000 : ℝ) + ((1001 : ℝ) - 1000) * (t : ℝ) /
          (((10 : ℕ) : ℝ) - 1) - 0 := by linarith
      exact le_trans this hle
    have := fspl_mono (by norm_num : (0:ℝ) < 1000) hdist
    rw [S_mixed_fspl_1000] at this
    linarith

lemma S_mixed_sinr_34 : 30 ≤ sinr_db S_mixed 3 4 := by
  unfold sinr_db
  have hC := fspl_const_bounds
  have hfspl1 : free_space_path_loss 1 = 20 * Real.logb 10 (32 * Real.pi) := by
    rw [free_space_path_loss_eq 1 one_ne_zero, Real.logb_one]
    ring
  have hr : rssi_link S_mixed 3 4 = 20 - 20 * Real.logb 10 (32 * Real.pi) := by
    rw [S_mixed_link_34, hfspl1]
  have hA : (10 : ℝ) ^ (-4 : ℝ) ≤ dbm_to_linear (rssi_link S_mixed 3 4) := by
    unfold dbm_to_linear
    apply rpow10_le_rpow10
    rw [hr]
    linarith
  have hN : dbm_to_linear NOISE_LEVEL + dbm_to_linear (max_jammer_rssi S_mixed 3 4) ≤
      (10 : ℝ) ^ (-7 : ℝ) := by
    unfold dbm_to_linear NOISE_LEVEL
    have h1 : (10 : ℝ) ^ ((-100 : ℝ) / 10) ≤ (10 : ℝ) ^ (-8 : ℝ) :=
      rpow10_le_rpow10 (by norm_num)
    have h2 : (10 : ℝ) ^ (max_jammer_rssi S_mixed 3 4 / 10) ≤ (10 : ℝ) ^ (-8 : ℝ) := by
      apply rpow10_le_rpow10
      have := S_mixed_max_jammer_34
      have hC1 := fspl_const_bounds.1
      linarith
    have he : (10 : ℝ) ^ (-7 : ℝ) = (10 : ℝ) ^ (1 : ℝ) * (10 : ℝ) ^ (-8 : ℝ) := by
      rw [← Real.rpow_add (by norm_num : (0:ℝ) < 10)]
      norm_num
    have h10 : (10 : ℝ) ^ (1 : ℝ) = 10 := Real.rpow_one 10
    rw [he, h10]
    nlinarith [rpow10_pos (-8 : ℝ)]
  have hNpos : 0 < dbm_to_linear NOISE_LEVEL + dbm_to_linear (max_jammer_rssi S_mixed 3 4) := by
    unfold dbm_to_linear
    have := rpow10_pos (NOISE_LEVEL / 10)
    have := rpow10_pos (max_jammer_rssi S_mixed 3 4 / 10)
    unfold NOISE_LEVEL at *
    linarith
  have hquot : (10 : ℝ) ^ (3 : ℝ) ≤ dbm_to_linear (rssi_link S_mixed 3 4) /
      (dbm_to_linear NOISE_LEVEL + dbm_to_linear (max_jammer_rssi S_mixed 3 4)) := by
    have hdiv : (10 : ℝ) ^ (-4 : ℝ) / (10 : ℝ) ^ (-7 : ℝ) ≤
        dbm_to_linear (rssi_link S_mixed 3 4) /
          (dbm_to_linear NOISE_LEVEL + dbm_to_linear (max_jammer_rssi S_mixed 3 4)) :=
      div_le_div (le_of_lt (lt_of_lt_of_le (rpow10_pos _) hA)) hA hNpos hN
    have heq : (10 : ℝ) ^ (-4 : ℝ) / (10 : ℝ) ^ (-7 : ℝ) = (10 : ℝ) ^ (3 : ℝ) := by
      rw [← Real.rpow_sub (by norm_num : (0:ℝ) < 10)]
      norm_num
    rw [heq] at hdiv
    exact hdiv
  have := linear_to_db_ge_of hquot
  linarith

lemma S_mixed_affected_34 : rssi_affected S_mixed 3 4 > -80 := by
  unfold rssi_affected REFERENCE_SINR RSSI_THRESHOLD
  have hC := fspl_const_bounds
  have hfspl1 : free_space_path_loss 1 = 20 * Real.logb 10 (32 * Real.pi) := by
    rw [free_space_path_loss_eq 1 one_ne_zero, Real.logb_one]
    ring
  have hr : rssi_link S_mixed 3 4 = 20 - 20 * Real.logb 10 (32 * Real.pi) := by
    rw [S_mixed_link_34, hfspl1]
  have hs := S_mixed_sinr_34
  have hmin : (-80 : ℝ) < min (rssi_link S_mixed 3 4)
      (rssi_link S_mixed 3 4 - (10 - sinr_db S_mixed 3 4)) := by
    apply lt_min
    · rw [hr]; linarith
    · rw [hr]; linarith
  exact lt_of_lt_of_le hmin (le_max_left _ _)

lemma S_mixed_high_rssi_3 : final_affected_rssi S_mixed 3 > -80 := by
  have hopt : affected_rssi_opt S_mixed 3 = some
      (([rssi_affected S_mixed 3 1, rssi_affected S_mixed 3 2,
        rssi_affected S_mixed 3 4]).foldl max (rssi_affected S_mixed 3 0)) := rfl
  have hfin : final_affected_rssi S_mixed 3 =
      ([rssi_affected S_mixed 3 1, rssi_affected S_mixed 3 2,
        rssi_affected S_mixed 3 4]).foldl max (rssi_affected S_mixed 3 0) := by
    unfold final_affected_rssi
    rw [hopt]
    rfl
  rw [hfin]
  have hmem : rssi_affected S_mixed 3 4 ∈
      [rssi_affected S_mixed 3 1, rssi_affected S_mixed 3 2, rssi_affected S_mixed 3 4] := by
    simp
  have := mem_le_foldl_max _ (rssi_affected S_mixed 3 0) _ hmem
  linarith [S_mixed_affected_34]

section
open Classical

lemma S_mixed_conditions : conditions_met S_mixed := by
  have hlen : S_mixed.node_positions.length = 5 := rfl
  refine ⟨?_, ?_, ?_⟩
  · unfold jammed_count
    have hsub : List.Sublist [0, 1, 2] (List.range S_mixed.node_positions.length) := by
      rw [hlen]
      decide
    refine le_trans ?_ (List.Sublist.countP_le _ hsub)
    simp only [List.countP_cons, List.countP_nil]
    rw [if_pos (decide_eq_true S_mixed_jammed_2), if_pos (decide_eq_true S_mixed_jammed_1),
      if_pos (decide_eq_true S_mixed_jammed_0)]
  · unfold not_jammed_count
    refine List.countP_pos.2 ⟨3, ?_, ?_⟩
    · rw [hlen]
      decide
    · exact decide_eq_true S_mixed_not_jammed_3
  · unfold high_rssi_count
    refine List.countP_pos.2 ⟨3, ?_, ?_⟩
    · rw [hlen]
      decide
    · exact decide_eq_true S_mixed_high_rssi_3

end

/-- Witness for `appended_scenario_satisfies_acceptance`: the concrete scenario
`S_mixed` passes the acceptance filter, and the theorem yields its jammed and
unjammed node counts. -/
theorem appended_scenario_satisfies_acceptance_witness :
    3 ≤ jammed_count S_mixed ∧ 1 ≤ not_jammed_count S_mixed :=
  ⟨(appended_scenario_satisfies_acceptance [S_mixed] S_mixed
      ⟨List.mem_singleton_self _, S_mixed_conditions⟩).1,
    (appended_scenario_satisfies_acceptance [S_mixed] S_mixed
      ⟨List.mem_singleton_self _, S_mixed_conditions⟩).2.1⟩

/- ## Node placement (`get_position`, `generator.py` lines 126–185) -/

/-- The placement strategies supported by `get_position`. -/
inductive Placement
  | random
  | circle
  | triangle
  | rectangle
  | line

/-- The random draws consumed by `get_position`: the uniform `[0, 1)` matrix of
the `random` strategy, the triangle rotation, and the `line` strategy's line
count, per-line headings, multinomial per-line node counts, average speed and
sampling rate. -/
structure PositionDraws where
  unitSquare : List (ℝ × ℝ)
  rotation : ℝ
  numLines : ℕ
  lineAngles : List ℝ
  lineCounts : List ℕ
  avgSpeed : ℝ
  samplingRate : ℝ

/-- `np.random.rand(n_nodes, 2) * size` (`generator.py` line 128). -/
noncomputable def randomPositions (size : ℝ) (draws : List (ℝ × ℝ)) : List (ℝ × ℝ) :=
  draws.map (fun u => (u.1 * size, u.2 * size))

/-- `generator.py` lines 129–133: `n` angles evenly spaced on `[0, 2π)`
(`np.linspace(0, 2π, n, endpoint=False)`), points `size/2 * (cos, sin) + size/2`. -/
noncomputable def circlePositions (n : ℕ) (size : ℝ) : List (ℝ × ℝ) :=
  (List.range n).map (fun i : ℕ =>
    (size / 2 * Real.cos (2 * Real.pi * (i : ℝ) / (n : ℝ)) + size / 2,
     size / 2 * Real.sin (2 * Real.pi * (i : ℝ) / (n : ℝ)) + size / 2))

/-- Vertex `i` of the inscribed triangle: angle `i * 2π/3 + rotation`, scaled by
`size/2` and recentered (`generator.py` lines 144–147). -/
noncomputable def triVertex (size rot : ℝ) (i : ℕ) : ℝ × ℝ :=
  (Real.cos ((i : ℝ) * (2 * Real.pi) / 3 + rot) * size / 2 + size / 2,
   Real.sin ((i : ℝ) * (2 * Real.pi) / 3 + rot) * size / 2 + size / 2)

/-- `np.linspace(start, end, m, endpoint=False)` on 2-D points: step `(b - a)/m`. -/
noncomputable def np_linspace2_open (a b : ℝ × ℝ) (m : ℕ) : List (ℝ × ℝ) :=
  (List.range m).map (fun j : ℕ =>
    (a.1 + (b.1 - a.1) * (j : ℝ) / (m : ℝ), a.2 + (b.2 - a.2) * (j : ℝ) / (m : ℝ)))

/-- Points per triangle side (`generator.py` lines 138 and 148–150):
`divmod(n, 3)` with one extra point on the first `n % 3` sides. -/
def triangleSideCounts (n : ℕ) : List ℕ :=
  [n / 3 + (if 1 ≤ n % 3 then 1 else 0), n / 3 + (if 2 ≤ n % 3 then 1 else 0), n / 3]

/-- The `triangle` branch (`generator.py` lines 134–154): each side of the
inscribed triangle carries its share of points, spread from its start vertex with
`endpoint=False`. -/
noncomputable def trianglePositions (n : ℕ) (size rot : ℝ) : List (ℝ × ℝ) :=
  (List.range 3).flatMap (fun i =>
    np_linspace2_open (triVertex size rot i) (triVertex size rot (i + 1))
      ((triangleSideCounts n).getD i 0))

/-- One coordinate of `np.linspace(0, size, m)` (endpoint included):
`size * k / (m - 1)`, or `0` for a single-point grid. -/
noncomputable def gridCoord (size : ℝ) (m k : ℕ) : ℝ :=
  if m ≤ 1 then 0 else size * (k : ℝ) / ((m : ℝ) - 1)

/-- The `rectangle` branch (`generator.py` lines 155–159): the
`m × m` meshgrid with `m = int(sqrt(n_nodes) + 1)`, raveled row-major
(`(x_j, y_i)` with the y index outermost) and truncated to `n` points. -/
noncomputable def rectanglePositions (n : ℕ) (size : ℝ) : List (ℝ × ℝ) :=
  ((List.range (Nat.sqrt n + 1)).flatMap (fun i =>
    (List.range (Nat.sqrt n + 1)).map (fun j =>
      (gridCoord size (Nat.sqrt n + 1) j, gridCoord size (Nat.sqrt n + 1) i)))).take n

/-- The boundary-intersection candidates of `calculate_maximum_distance`
(`generator.py` lines 84–92): for `bound_x ∈ {0, size}` the point
`(bound_x, center_y + (bound_x - center_x)/tan(angle))` when its y-coordinate lies
in `[0, size]`, and for `bound_y ∈ {0, size}` the point
`(center_x + (bound_y - center_y)*tan(angle), bound_y)` when its x-coordinate lies
in `[0, size]`.  Real-field division by zero follows Lean's `x / 0 = 0`
convention at the measure-zero angles where `tan` vanishes or blows up. -/
noncomputable def boundaryCandidates (cx cy angle size : ℝ) : List (ℝ × ℝ) :=
  (([0, size].map (fun bx => (bx, cy + (bx - cx) / Real.tan angle))).filter
      (fun p => decide (0 ≤ p.2) && decide (p.2 ≤ size))) ++
  (([0, size].map (fun yb => (cx + (yb - cy) * Real.tan angle, yb))).filter
      (fun p => decide (0 ≤ p.1) && decide (p.1 ≤ size)))

/-- `calculate_maximum_distance` (`generator.py` lines 82–100): the maximum of the
center-to-candidate distances, starting from 0. -/
noncomputable def calculate_maximum_distance (cx cy angle size : ℝ) : ℝ :=
  ((boundaryCandidates cx cy angle size).map (fun p =>
    Real.sqrt ((p.1 - cx) ^ 2 + (p.2 - cy) ^ 2))).foldl max 0

/-- The `line` branch (`generator.py` lines 160–181): each line spreads its nodes
from the center along its heading with steps `total_distance * (j / m)`, where
`total_distance = min(avg_speed * sampling_rate, max_distance)`. -/
noncomputable def linePositions (size : ℝ) (d : PositionDraws) : List (ℝ × ℝ) :=
  (List.range d.numLines).flatMap (fun i =>
    (List.range (d.lineCounts.getD i 0)).map (fun j : ℕ =>
      (size / 2 + (min (d.avgSpeed * d.samplingRate)
          (calculate_maximum_distance (size / 2) (size / 2) (d.lineAngles.getD i 0) size) *
          ((j : ℝ) / ((d.lineCounts.getD i 0 : ℕ) : ℝ))) * Real.cos (d.lineAngles.getD i 0),
       size / 2 + (min (d.avgSpeed * d.samplingRate)
          (calculate_maximum_distance (size / 2) (size / 2) (d.lineAngles.getD i 0) size) *
          ((j : ℝ) / ((d.lineCounts.getD i 0 : ℕ) : ℝ))) * Real.sin (d.lineAngles.getD i 0))))

/-- `get_position` (`generator.py` lines 126–185). -/
noncomputable def get_position (n : ℕ) (size : ℝ) (p : Placement) (d : PositionDraws) :
    List (ℝ × ℝ) :=
  match p with
  | Placement.random => randomPositions size d.unitSquare
  | Placement.circle => circlePositions n size
  | Placement.triangle => trianglePositions n size d.rotation
  | Placement.rectangle => rectanglePositions n size
  | Placement.line => linePositions size d

/- ### Bounds for each placement strategy -/

lemma scaled_cos_bounds {size c : ℝ} (hs : 0 ≤ size) (h1 : -1 ≤ c) (h2 : c ≤ 1) :
    0 ≤ size / 2 * c + size / 2 ∧ size / 2 * c + size / 2 ≤ size := by
  constructor <;> nlinarith

lemma lerp_coord_bounds {x y t s : ℝ} (hx0 : 0 ≤ x) (hxs : x ≤ s) (hy0 : 0 ≤ y)
    (hys : y ≤ s) (ht0 : 0 ≤ t) (ht1 : t ≤ 1) :
    0 ≤ x + (y - x) * t ∧ x + (y - x) * t ≤ s := by
  constructor <;> nlinarith

lemma triangleSideCounts_sum (n : ℕ) : (triangleSideCounts n).sum = n := by
  unfold triangleSideCounts
  have hd := Nat.div_add_mod n 3
  have hm : n % 3 = 0 ∨ n % 3 = 1 ∨ n % 3 = 2 := by omega
  simp only [List.sum_cons, List.sum_nil]
  rcases hm with h | h | h <;> rw [h] <;> norm_num <;> omega

lemma trianglePositions_length (n : ℕ) (size rot : ℝ) :
    (trianglePositions n size rot).length = n := by
  unfold trianglePositions
  rw [List.length_flatMap]
  rw [show List.range 3 = [0, 1, 2] from rfl]
  simp only [List.map_cons, List.map_nil, List.sum_cons, List.sum_nil, Function.comp]
  have hlen : ∀ (a b : ℝ × ℝ) (m : ℕ), (np_linspace2_open a b m).length = m := by
    intro a b m
    unfold np_linspace2_open
    rw [List.length_map, List.length_range]
  rw [hlen, hlen, hlen]
  have := triangleSideCounts_sum n
  unfold triangleSideCounts at this ⊢
  simp only [List.sum_cons, List.sum_nil] at this
  simpa using this


lemma vertex_coord_bounds {size c : ℝ} (hs : 0 ≤ size) (h1 : -1 ≤ c) (h2 : c ≤ 1) :
    0 ≤ c * size / 2 + size / 2 ∧ c * size / 2 + size / 2 ≤ size := by
  constructor <;> nlinarith

lemma triVertex_bounds (size rot : ℝ) (hs : 0 ≤ size) (i : ℕ) :
    (0 ≤ (triVertex size rot i).1 ∧ (triVertex size rot i).1 ≤ size) ∧
    (0 ≤ (triVertex size rot i).2 ∧ (triVertex size rot i).2 ≤ size) := by
  unfold triVertex
  exact ⟨vertex_coord_bounds hs (Real.neg_one_le_cos _) (Real.cos_le_one _),
    vertex_coord_bounds hs (Real.neg_one_le_sin _) (Real.sin_le_one _)⟩

lemma np_linspace2_open_bounds (a b : ℝ × ℝ) (m : ℕ) (s : ℝ)
    (ha1 : 0 ≤ a.1) (ha1s : a.1 ≤ s) (hb1 : 0 ≤ b.1) (hb1s : b.1 ≤ s)
    (ha2 : 0 ≤ a.2) (ha2s : a.2 ≤ s) (hb2 : 0 ≤ b.2) (hb2s : b.2 ≤ s) :
    ∀ q ∈ np_linspace2_open a b m, 0 ≤ q.1 ∧ q.1 ≤ s ∧ 0 ≤ q.2 ∧ q.2 ≤ s := by
  intro q hq
  unfold np_linspace2_open at hq
  rcases List.mem_map.1 hq with ⟨j, hj, rfl⟩
  have hjm := List.mem_range.1 hj
  have hmpos : (0 : ℝ) < (m : ℝ) := by
    have : 0 < m := lt_of_le_of_lt (Nat.zero_le j) hjm
    exact_mod_cast this
  have ht0 : (0 : ℝ) ≤ (j : ℝ) / (m : ℝ) := by positivity
  have ht1 : (j : ℝ) / (m : ℝ) ≤ 1 := by
    rw [div_le_one hmpos]
    exact_mod_cast hjm.le
  have h1 := lerp_coord_bounds ha1 ha1s hb1 hb1s ht0 ht1
  have h2 := lerp_coord_bounds ha2 ha2s hb2 hb2s ht0 ht1
  have e1 : a.1 + (b.1 - a.1) * (j : ℝ) / (m : ℝ) =
      a.1 + (b.1 - a.1) * ((j : ℝ) / (m : ℝ)) := by ring
  have e2 : a.2 + (b.2 - a.2) * (j : ℝ) / (m : ℝ) =
      a.2 + (b.2 - a.2) * ((j : ℝ) / (m : ℝ)) := by ring
  dsimp only
  rw [e1, e2]
  exact ⟨h1.1, h1.2, h2.1, h2.2⟩

lemma trianglePositions_bounds (n : ℕ) (size rot : ℝ) (hs : 0 ≤ size) :
    ∀ q ∈ trianglePositions n size rot, 0 ≤ q.1 ∧ q.1 ≤ size ∧ 0 ≤ q.2 ∧ q.2 ≤ size := by
  intro q hq
  unfold trianglePositions at hq
  rcases List.mem_flatMap.1 hq with ⟨i, _, hqi⟩
  have hv1 := triVertex_bounds size rot hs i
  have hv2 := triVertex_bounds size rot hs (i + 1)
  exact np_linspace2_open_bounds _ _ _ size hv1.1.1 hv1.1.2 hv2.1.1 hv2.1.2
    hv1.2.1 hv1.2.2 hv2.2.1 hv2.2.2 q hqi

lemma circlePositions_length (n : ℕ) (size : ℝ) : (circlePositions n size).length = n := by
  unfold circlePositions
  rw [List.length_map, List.length_range]

lemma circlePositions_bounds (n : ℕ) (size : ℝ) (hs : 0 ≤ size) :
    ∀ q ∈ circlePositions n size, 0 ≤ q.1 ∧ q.1 ≤ size ∧ 0 ≤ q.2 ∧ q.2 ≤ size := by
  intro q hq
  unfold circlePositions at hq
  rcases List.mem_map.1 hq with ⟨i, _, rfl⟩
  dsimp only
  exact ⟨(scaled_cos_bounds hs (Real.neg_one_le_cos _) (Real.cos_le_one _)).1,
    (scaled_cos_bounds hs (Real.neg_one_le_cos _) (Real.cos_le_one _)).2,
    (scaled_cos_bounds hs (Real.neg_one_le_sin _) (Real.sin_le_one _)).1,
    (scaled_cos_bounds hs (Real.neg_one_le_sin _) (Real.sin_le_one _)).2⟩

lemma randomPositions_bounds (size : ℝ) (draws : List (ℝ × ℝ)) (hs : 0 ≤ size)
    (hd : ∀ u ∈ draws, 0 ≤ u.1 ∧ u.1 < 1 ∧ 0 ≤ u.2 ∧ u.2 < 1) :
    ∀ q ∈ randomPositions size draws, 0 ≤ q.1 ∧ q.1 ≤ size ∧ 0 ≤ q.2 ∧ q.2 ≤ size := by
  intro q hq
  unfold randomPositions at hq
  rcases List.mem_map.1 hq with ⟨u, hu, rfl⟩
  obtain ⟨h1, h2, h3, h4⟩ := hd u hu
  dsimp only
  refine ⟨mul_nonneg h1 hs, ?_, mul_nonneg h3 hs, ?_⟩
  · calc u.1 * size ≤ 1 * size := mul_le_mul_of_nonneg_right h2.le hs
      _ = size := one_mul size
  · calc u.2 * size ≤ 1 * size := mul_le_mul_of_nonneg_right h4.le hs
      _ = size := one_mul size

lemma gridCoord_bounds (size : ℝ) (m k : ℕ) (hs : 0 ≤ size) (hk : k < m) :
    0 ≤ gridCoord size m k ∧ gridCoord size m k ≤ size := by
  unfold gridCoord
  by_cases hm : m ≤ 1
  · rw [if_pos hm]
    exact ⟨le_rfl, hs⟩
  · rw [if_neg hm]
    push_neg at hm
    have hm1 : (1 : ℝ) ≤ (m : ℝ) - 1 := by
      have h2 : (2 : ℕ) ≤ m := hm
      have : (2 : ℝ) ≤ (m : ℝ) := by exact_mod_cast h2
      linarith
    have hk1 : (k : ℝ) ≤ (m : ℝ) - 1 := by
      have hk2 : (k : ℕ) + 1 ≤ m := hk
      have : (k : ℝ) + 1 ≤ (m : ℝ) := by exact_mod_cast hk2
      linarith
    constructor
    · exact div_nonneg (mul_nonneg hs (Nat.cast_nonneg k)) (by linarith)
    · rw [mul_div_assoc]
      refine mul_le_of_le_one_right hs ?_
      rw [div_le_one (by linarith : (0:ℝ) < (m:ℝ) - 1)]
      exact hk1

lemma rectanglePositions_length (n : ℕ) (size : ℝ) :
    (rectanglePositions n size).length = n := by
  unfold rectanglePositions
  rw [List.length_take, List.length_flatMap]
  have hmap : ((List.range (Nat.sqrt n + 1)).map
      (List.length ∘ fun i => (List.range (Nat.sqrt n + 1)).map fun j =>
        (gridCoord size (Nat.sqrt n + 1) j, gridCoord size (Nat.sqrt n + 1) i))) =
      List.replicate (Nat.sqrt n + 1) (Nat.sqrt n + 1) := by
    rw [show (List.length ∘ fun i : ℕ => (List.range (Nat.sqrt n + 1)).map fun j =>
        (gridCoord size (Nat.sqrt n + 1) j, gridCoord size (Nat.sqrt n + 1) i)) =
        fun _ : ℕ => Nat.sqrt n + 1 by
      funext i
      simp [Function.comp]]
    rw [List.map_const', List.length_range]
  rw [hmap, List.sum_replicate, smul_eq_mul]
  exact Nat.min_eq_left (le_of_lt (Nat.lt_succ_sqrt n))

lemma rectanglePositions_bounds (n : ℕ) (size : ℝ) (hs : 0 ≤ size) :
    ∀ q ∈ rectanglePositions n size, 0 ≤ q.1 ∧ q.1 ≤ size ∧ 0 ≤ q.2 ∧ q.2 ≤ size := by
  intro q hq
  unfold rectanglePositions at hq
  have hq2 := List.mem_of_mem_take hq
  rcases List.mem_flatMap.1 hq2 with ⟨i, hi, hqi⟩
  rcases List.mem_map.1 hqi with ⟨j, hj, rfl⟩
  have hbi := gridCoord_bounds size _ i hs (List.mem_range.1 hi)
  have hbj := gridCoord_bounds size _ j hs (List.mem_range.1 hj)
  exact ⟨hbj.1, hbj.2, hbi.1, hbi.2⟩

lemma cos_ne_zero_of_tan_ne_zero {angle : ℝ} (h : Real.tan angle ≠ 0) :
    Real.cos angle ≠ 0 := by
  intro hc
  exact h (by rw [Real.tan_eq_sin_div_cos, hc, div_zero])

lemma sin_ne_zero_of_tan_ne_zero {angle : ℝ} (h : Real.tan angle ≠ 0) :
    Real.sin angle ≠ 0 := by
  intro hsin
  exact h (by rw [Real.tan_eq_sin_div_cos, hsin, zero_div])

lemma sqrt_mul_abs (x c : ℝ) (hx : 0 ≤ x) :
    Real.sqrt x * |c| = Real.sqrt (x * c ^ 2) := by
  rw [← Real.sqrt_sq_eq_abs, ← Real.sqrt_mul hx]

/-- Every boundary candidate of `calculate_maximum_distance` (center at the middle
of the arena) is at a distance `dd` from the center with both `dd·|cos|` and
`dd·|sin|` at most `size/2`: moving that far along the heading stays inside. -/
lemma boundaryCandidates_dist_bound (size angle : ℝ) (hs : 0 < size) :
    ∀ p ∈ boundaryCandidates (size / 2) (size / 2) angle size,
      Real.sqrt ((p.1 - size / 2) ^ 2 + (p.2 - size / 2) ^ 2) * |Real.cos angle| ≤ size / 2 ∧
      Real.sqrt ((p.1 - size / 2) ^ 2 + (p.2 - size / 2) ^ 2) * |Real.sin angle| ≤ size / 2 := by
  intro p hp
  unfold boundaryCandidates at hp
  rcases List.mem_append.1 hp with hp1 | hp2
  · rcases List.mem_filter.1 hp1 with ⟨hmem, hfilt⟩
    rcases List.mem_map.1 hmem with ⟨bx, hbx, rfl⟩
    simp only [Bool.and_eq_true, decide_eq_true_eq] at hfilt
    have hu : (bx - size / 2) ^ 2 = (size / 2) ^ 2 := by
      rcases (by simpa using hbx : bx = 0 ∨ bx = size) with rfl | rfl <;> ring
    dsimp only at hfilt ⊢
    set u := bx - size / 2 with hu'
    set w := u / Real.tan angle with hw'
    have hwf : -(size / 2) ≤ w ∧ w ≤ size / 2 := by
      constructor <;> [linarith [hfilt.1]; linarith [hfilt.2]]
    have hadd : (0:ℝ) ≤ u ^ 2 + (size / 2 + w - size / 2) ^ 2 := by positivity
    have hsimp : size / 2 + w - size / 2 = w := by ring
    rw [hsimp] at hadd
    have habs_u : |u| = size / 2 := by
      rw [← Real.sqrt_sq_eq_abs, hu, Real.sqrt_sq (by linarith)]
    by_cases htan : Real.tan angle = 0
    · have hw0 : w = 0 := by rw [hw', htan, div_zero]
      have hdd : Real.sqrt (u ^ 2 + (size / 2 + w - size / 2) ^ 2) = size / 2 := by
        rw [hsimp, hw0, show u ^ 2 + (0:ℝ) ^ 2 = u ^ 2 by ring, Real.sqrt_sq_eq_abs, habs_u]
      rw [hdd]
      constructor
      · exact mul_le_of_le_one_right (by linarith) (Real.abs_cos_le_one angle)
      · exact mul_le_of_le_one_right (by linarith) (Real.abs_sin_le_one angle)
    · have hcos := cos_ne_zero_of_tan_ne_zero htan
      have hsin := sin_ne_zero_of_tan_ne_zero htan
      have hw : w = u * Real.cos angle / Real.sin angle := by
        rw [hw', Real.tan_eq_sin_div_cos]
        field_simp
      have key1 : (u ^ 2 + w ^ 2) * Real.sin angle ^ 2 = u ^ 2 := by
        rw [hw]
        field_simp
        nlinarith [Real.sin_sq_add_cos_sq angle]
      have key2 : (u ^ 2 + w ^ 2) * Real.cos angle ^ 2 = w ^ 2 := by
        rw [hw]
        field_simp
        nlinarith [Real.sin_sq_add_cos_sq angle]
      constructor
      · rw [hsimp, sqrt_mul_abs _ _ (by positivity), key2, Real.sqrt_sq_eq_abs]
        exact abs_le.2 hwf
      · rw [hsimp, sqrt_mul_abs _ _ (by positivity), key1, Real.sqrt_sq_eq_abs, habs_u]
  · rcases List.mem_filter.1 hp2 with ⟨hmem, hfilt⟩
    rcases List.mem_map.1 hmem with ⟨yb, hyb, rfl⟩
    simp only [Bool.and_eq_true, decide_eq_true_eq] at hfilt
    have hu : (yb - size / 2) ^ 2 = (size / 2) ^ 2 := by
      rcases (by simpa using hyb : yb = 0 ∨ yb = size) with rfl | rfl <;> ring
    dsimp only at hfilt ⊢
    set u := yb - size / 2 with hu'
    set w := u * Real.tan angle with hw'
    have hwf : -(size / 2) ≤ w ∧ w ≤ size / 2 := by
      constructor <;> [linarith [hfilt.1]; linarith [hfilt.2]]
    have hsimp : size / 2 + w - size / 2 = w := by ring
    have habs_u : |u| = size / 2 := by
      rw [← Real.sqrt_sq_eq_abs, hu, Real.sqrt_sq (by linarith)]
    by_cases htan : Real.tan angle = 0
    · have hw0 : w = 0 := by rw [hw', htan, mul_zero]
      have hdd : Real.sqrt ((size / 2 + w - size / 2) ^ 2 + u ^ 2) = size / 2 := by
        rw [hsimp, hw0, show (0:ℝ) ^ 2 + u ^ 2 = u ^ 2 by ring, Real.sqrt_sq_eq_abs, habs_u]
      rw [hdd]
      constructor
      · exact mul_le_of_le_one_right (by linarith) (Real.abs_cos_le_one angle)
      · exact mul_le_of_le_one_right (by linarith) (Real.abs_sin_le_one angle)
    · have hcos := cos_ne_zero_of_tan_ne_zero htan
      have hsin := sin_ne_zero_of_tan_ne_zero htan
      have hw : w = u * Real.sin angle / Real.cos angle := by
        rw [hw', Real.tan_eq_sin_div_cos]
        field_simp
      have key1 : (w ^ 2 + u ^ 2) * Real.cos angle ^ 2 = u ^ 2 := by
        rw [hw]
        field_simp
        nlinarith [Real.sin_sq_add_cos_sq angle]
      have key2 : (w ^ 2 + u ^ 2) * Real.sin angle ^ 2 = w ^ 2 := by
        rw [hw]
        field_simp
        nlinarith [Real.sin_sq_add_cos_sq angle]
      constructor
      · rw [hsimp, sqrt_mul_abs _ _ (by positivity), key1, Real.sqrt_sq_eq_abs, habs_u]
      · rw [hsimp, sqrt_mul_abs _ _ (by positivity), key2, Real.sqrt_sq_eq_abs]
        exact abs_le.2 hwf

lemma calculate_maximum_distance_nonneg (cx cy angle size : ℝ) :
    0 ≤ calculate_maximum_distance cx cy angle size :=
  le_foldl_max_init _ 0

lemma calculate_maximum_distance_mul_le (size angle : ℝ) (hs : 0 < size) :
    calculate_maximum_distance (size / 2) (size / 2) angle size * |Real.cos angle| ≤
        size / 2 ∧
      calculate_maximum_distance (size / 2) (size / 2) angle size * |Real.sin angle| ≤
        size / 2 := by
  unfold calculate_maximum_distance
  rcases foldl_max_eq_init_or_mem ((boundaryCandidates (size / 2) (size / 2) angle size).map
      (fun p => Real.sqrt ((p.1 - size / 2) ^ 2 + (p.2 - size / 2) ^ 2))) 0 with h | h
  · rw [h]
    constructor <;> · rw [zero_mul]; linarith
  · rcases List.mem_map.1 h with ⟨p, hp, heq⟩
    rw [← heq]
    exact boundaryCandidates_dist_bound size angle hs p hp

lemma linePositions_bounds (size : ℝ) (d : PositionDraws) (hs : 0 < size)
    (hv : 0 ≤ d.avgSpeed) (hr : 0 ≤ d.samplingRate) :
    ∀ q ∈ linePositions size d, 0 ≤ q.1 ∧ q.1 ≤ size ∧ 0 ≤ q.2 ∧ q.2 ≤ size := by
  intro q hq
  unfold linePositions at hq
  rcases List.mem_flatMap.1 hq with ⟨i, _, hqi⟩
  rcases List.mem_map.1 hqi with ⟨j, hj, rfl⟩
  have hjm := List.mem_range.1 hj
  have hmpos : (0 : ℝ) < ((d.lineCounts.getD i 0 : ℕ) : ℝ) := by
    have : 0 < d.lineCounts.getD i 0 := lt_of_le_of_lt (Nat.zero_le j) hjm
    exact_mod_cast this
  have hfrac0 : (0 : ℝ) ≤ (j : ℝ) / ((d.lineCounts.getD i 0 : ℕ) : ℝ) := by positivity
  have hfrac1 : (j : ℝ) / ((d.lineCounts.getD i 0 : ℕ) : ℝ) ≤ 1 := by
    rw [div_le_one hmpos]
    exact_mod_cast hjm.le
  have hM := calculate_maximum_distance_nonneg (size / 2) (size / 2)
    (d.lineAngles.getD i 0) size
  have hT0 : 0 ≤ min (d.avgSpeed * d.samplingRate)
      (calculate_maximum_distance (size / 2) (size / 2) (d.lineAngles.getD i 0) size) :=
    le_min (mul_nonneg hv hr) hM
  have hTM : min (d.avgSpeed * d.samplingRate)
      (calculate_maximum_distance (size / 2) (size / 2) (d.lineAngles.getD i 0) size) ≤
      calculate_maximum_distance (size / 2) (size / 2) (d.lineAngles.getD i 0) size :=
    min_le_right _ _
  set T := min (d.avgSpeed * d.samplingRate)
    (calculate_maximum_distance (size / 2) (size / 2) (d.lineAngles.getD i 0) size)
  set frac := (j : ℝ) / ((d.lineCounts.getD i 0 : ℕ) : ℝ)
  have hstep0 : 0 ≤ T * frac := mul_nonneg hT0 hfrac0
  have hstepM : T * frac ≤ calculate_maximum_distance (size / 2) (size / 2)
      (d.lineAngles.getD i 0) size :=
    le_trans (mul_le_of_le_one_right hT0 hfrac1) hTM
  have hC := calculate_maximum_distance_mul_le size (d.lineAngles.getD i 0) hs
  have hx : |T * frac * Real.cos (d.lineAngles.getD i 0)| ≤ size / 2 := by
    rw [abs_mul, abs_of_nonneg hstep0]
    calc T * frac * |Real.cos (d.lineAngles.getD i 0)| ≤
        calculate_maximum_distance (size / 2) (size / 2) (d.lineAngles.getD i 0) size *
          |Real.cos (d.lineAngles.getD i 0)| :=
          mul_le_mul_of_nonneg_right hstepM (abs_nonneg _)
      _ ≤ size / 2 := hC.1
  have hy : |T * frac * Real.sin (d.lineAngles.getD i 0)| ≤ size / 2 := by
    rw [abs_mul, abs_of_nonneg hstep0]
    calc T * frac * |Real.sin (d.lineAngles.getD i 0)| ≤
        calculate_maximum_distance (size / 2) (size / 2) (d.lineAngles.getD i 0) size *
          |Real.sin (d.lineAngles.getD i 0)| :=
          mul_le_mul_of_nonneg_right hstepM (abs_nonneg _)
      _ ≤ size / 2 := hC.2
  have hx' := abs_le.1 hx
  have hy' := abs_le.1 hy
  dsimp only
  exact ⟨by linarith [hx'.1], by linarith [hx'.2], by linarith [hy'.1], by linarith [hy'.2]⟩

lemma range_map_getD (l : List ℕ) :
    (List.range l.length).map (fun i => l.getD i 0) = l := by
  induction l with
  | nil => rfl
  | cons a as ih =>
      rw [List.length_cons, List.range_succ_eq_map, List.map_cons, List.map_map]
      have hcomp : ((fun i => (a :: as).getD i 0) ∘ Nat.succ) = (fun i => as.getD i 0) := rfl
      rw [hcomp, ih]
      rfl

lemma linePositions_length (size : ℝ) (d : PositionDraws)
    (hlc : d.lineCounts.length = d.numLines) :
    (linePositions size d).length = d.lineCounts.sum := by
  unfold linePositions
  rw [List.length_flatMap]
  have hmap : ∀ g : ℕ → ℕ → ℝ × ℝ, ((List.range d.numLines).map
      (List.length ∘ fun i => (List.range (d.lineCounts.getD i 0)).map (g i))) =
      (List.range d.numLines).map (fun i => d.lineCounts.getD i 0) := by
    intro g
    apply List.map_congr_left
    intro i _
    simp [Function.comp]
  rw [hmap]
  rw [← hlc, range_map_getD]

/-- C3: for every node count, positive arena size, and supported placement
strategy, `get_position` returns exactly `n` positions, all inside the square
`[0, size] × [0, size]`.  The random draws are explicit inputs, constrained
exactly as numpy produces them: `np.random.rand` in `[0, 1)`, a multinomial
vector summing to `n` with one entry per line, and nonnegative speed and
sampling rate. -/
theorem get_position_spec (n : ℕ) (size : ℝ) (p : Placement) (d : PositionDraws)
    (hn : 1 ≤ n) (hs : 0 < size)
    (hdl : d.unitSquare.length = n)
    (hdu : ∀ u ∈ d.unitSquare, 0 ≤ u.1 ∧ u.1 < 1 ∧ 0 ≤ u.2 ∧ u.2 < 1)
    (hlc : d.lineCounts.length = d.numLines)
    (hsum : d.lineCounts.sum = n)
    (hv : 0 ≤ d.avgSpeed) (hr : 0 ≤ d.samplingRate) :
    (get_position n size p d).length = n ∧
      ∀ q ∈ get_position n size p d, 0 ≤ q.1 ∧ q.1 ≤ size ∧ 0 ≤ q.2 ∧ q.2 ≤ size := by
  cases p with
  | random =>
      refine ⟨?_, ?_⟩
      · show (randomPositions size d.unitSquare).length = n
        unfold randomPositions
        rw [List.length_map, hdl]
      · show ∀ q ∈ randomPositions size d.unitSquare, _
        exact randomPositions_bounds size d.unitSquare hs.le hdu
  | circle =>
      exact ⟨circlePositions_length n size, circlePositions_bounds n size hs.le⟩
  | triangle =>
      exact ⟨trianglePositions_length n size d.rotation,
        trianglePositions_bounds n size d.rotation hs.le⟩
  | rectangle =>
      exact ⟨rectanglePositions_length n size, rectanglePositions_bounds n size hs.le⟩
  | line =>
      exact ⟨(linePositions_length size d hlc).trans hsum,
        linePositions_bounds size d hs hv hr⟩

/-- Concrete draws for the `get_position_spec` witness: one node, one line. -/
noncomputable def drawsW : PositionDraws :=
  { unitSquare := [(0, 0)]
    rotation := 0
    numLines := 1
    lineAngles := [0]
    lineCounts := [1]
    avgSpeed := 0
    samplingRate := 0 }

/-- Witness for `get_position_spec` at a concrete instantiation. -/
theorem get_position_spec_witness :
    (get_position 1 1 Placement.random drawsW).length = 1 :=
  (get_position_spec 1 1 Placement.random drawsW le_rfl (by norm_num) rfl
    (by intro u hu
        simp [drawsW] at hu
        rw [hu]
        norm_num)
    rfl (by simp [drawsW]) le_rfl le_rfl).1
